import Mathlib

/-!
Verification of the grid layout engine of the claude-canvas repository.

The engine places rectangular window spans on an M×N grid: a cell model,
a position-notation codec (spreadsheet style and coordinate style), an
overlap-safe placement engine, a first-fit search, and a geometry
resolver.  The grid module itself is not present in the source tree
(only its unit tests and its callers `session.ts` and `cli.ts` are), so
the engine's operations are modelled from the specification's component
design (§3, §4) and checked against the behaviour the in-tree unit
tests and callers pin down.  Session-level operations
(`configureGrid`, `assignWindowToCell`, `removeWindowFromGrid`,
`moveWindowInGrid`) and the CLI's cell rendering are translated
directly from `session.ts` and `cli.ts`.

Machine integers are modelled as `Nat`; the `lastUpdated` timestamp
field of a grid state is omitted (no claim concerns it, and no
operation reads it).  Fallible operations return explicit result
values, mirroring the error taxonomy of §7.
-/

/-- Modelled from the spec: a cell span (§3), a rectangular axis-aligned
region of the grid, zero-based start position with row/column extents. -/
structure CellSpan where
  startRow : Nat
  startColumn : Nat
  rowSpan : Nat
  columnSpan : Nat
  deriving DecidableEq, Repr

/-- Modelled from the spec: the grid configuration (§3) — dimensions,
target monitor, inter-cell gaps and outer margins. -/
structure GridConfig where
  rows : Nat
  columns : Nat
  monitorIndex : Nat
  cellGapHorizontal : Nat
  cellGapVertical : Nat
  marginTop : Nat
  marginBottom : Nat
  marginLeft : Nat
  marginRight : Nat
  deriving DecidableEq, Repr

/-- Modelled from the spec: one assignment, binding a window identifier
to a cell span (§3). -/
structure Assignment where
  windowId : String
  cellSpan : CellSpan
  deriving DecidableEq, Repr

/-- Modelled from the spec: the grid state (§3) — target desktop,
configuration and the ordered assignment list.  The `lastUpdated`
timestamp is omitted (never read by any operation). -/
structure GridState where
  desktopIndex : Nat
  config : GridConfig
  assignments : List Assignment
  deriving DecidableEq, Repr

/-- The default grid configuration: 3×3, monitor 0, 4px gaps, no
margins.  These literals are the defaults of `configureGrid` in
`session.ts` (lines 533-541). -/
def DEFAULT_GRID_CONFIG : GridConfig :=
  { rows := 3, columns := 3, monitorIndex := 0, cellGapHorizontal := 4,
    cellGapVertical := 4, marginTop := 0, marginBottom := 0,
    marginLeft := 0, marginRight := 0 }

/-- Modelled from the spec: creating a grid state (tests name it
`createGridState`, `session.ts` calls it `initializeGridState`) — a
fresh state with no assignments. -/
def createGridState (desktopIndex : Nat := 0) (config : GridConfig := DEFAULT_GRID_CONFIG) :
    GridState :=
  { desktopIndex := desktopIndex, config := config, assignments := [] }

/-! ## Position notation codec (§4.1) -/

/-- An ASCII letter, of either case. -/
def isLetterChar (c : Char) : Bool :=
  (65 ≤ c.toNat && c.toNat ≤ 90) || (97 ≤ c.toNat && c.toNat ≤ 122)

/-- An ASCII decimal digit. -/
def isDigitChar (c : Char) : Bool :=
  48 ≤ c.toNat && c.toNat ≤ 57

/-- ASCII case folding to upper case. -/
def upChar (c : Char) : Char :=
  if 97 ≤ c.toNat && c.toNat ≤ 122 then Char.ofNat (c.toNat - 32) else c

/-- Value of an upper-case letter run in the bijective base-26
spreadsheet scheme, one-based: A=1, …, Z=26, AA=27, …. -/
def lettersVal (l : List Char) : Nat :=
  l.foldl (fun acc c => 26 * acc + (c.toNat - 64)) 0

/-- Value of a decimal digit run. -/
def digitsVal (l : List Char) : Nat :=
  l.foldl (fun acc c => 10 * acc + (c.toNat - 48)) 0

/-- Fuel-driven renderer of a zero-based column index as bijective
base-26 letters (fuel keeps the recursion structural so that concrete
values reduce by evaluation). -/
def colLettersAux : Nat → Nat → List Char
  | 0, _ => []
  | fuel + 1, n =>
    if n < 26 then [Char.ofNat (65 + n)]
    else colLettersAux fuel (n / 26 - 1) ++ [Char.ofNat (65 + n % 26)]

/-- The bijective base-26 letters of a zero-based column index:
0 ↦ "A", 25 ↦ "Z", 26 ↦ "AA". -/
def colLetters (n : Nat) : List Char := colLettersAux (n + 1) n

/-- Fuel-driven decimal renderer of a natural number. -/
def natDigitsAux : Nat → Nat → List Char
  | 0, _ => []
  | fuel + 1, n =>
    if n < 10 then [Char.ofNat (48 + n)]
    else natDigitsAux fuel (n / 10) ++ [Char.ofNat (48 + n % 10)]

/-- Decimal digits of a natural number. -/
def natDigits (n : Nat) : List Char := natDigitsAux (n + 1) n

/-- Split a character list at every occurrence of a separator. -/
def splitOnChar (sep : Char) : List Char → List (List Char)
  | [] => [[]]
  | c :: rest =>
    let r := splitOnChar sep rest
    if c = sep then [] :: r
    else
      match r with
      | [] => [[c]]
      | h :: t => (c :: h) :: t

/-- Modelled from the spec: one spreadsheet-style corner
`<Letters><Digits>` (§4.1).  Letters are case-insensitive bijective
base-26 (one-based column), digits a one-based row; the result is the
zero-based (row, column) pair.  The round-trip law of §4.1/§8 is
normative for the modelled parser, so the digit run is taken in
canonical form: non-empty, all digits, no leading zero (which also
rules out the meaningless one-based row 0). -/
def parseCorner (l : List Char) : Option (Nat × Nat) :=
  let letters := l.takeWhile isLetterChar
  let digits := l.dropWhile isLetterChar
  if letters.isEmpty then none
  else if digits.isEmpty then none
  else if !digits.all isDigitChar then none
  else if digits.head? = some '0' then none
  else some (digitsVal digits - 1, lettersVal (letters.map upChar) - 1)

/-- Modelled from the spec: the spreadsheet grammar (§4.1) — a single
corner, or two corners joined by `:`; a range's corners may come in any
order and are normalized to a top-left start with inclusive extents. -/
def parseSpreadsheet (l : List Char) : Option CellSpan :=
  match splitOnChar ':' l with
  | [a] => (parseCorner a).map fun rc => ⟨rc.1, rc.2, 1, 1⟩
  | [a, b] =>
    match parseCorner a, parseCorner b with
    | some rc1, some rc2 =>
      some ⟨min rc1.1 rc2.1, min rc1.2 rc2.2,
            max rc1.1 rc2.1 + 1 - min rc1.1 rc2.1,
            max rc1.2 rc2.2 + 1 - min rc1.2 rc2.2⟩
    | _, _ => none
  | _ => none

/-- Drop spaces at both ends. -/
def trimSpaces (l : List Char) : List Char :=
  ((l.dropWhile (· == ' ')).reverse.dropWhile (· == ' ')).reverse

/-- A non-empty all-digit run, read as a decimal number. -/
def parseNatAll (l : List Char) : Option Nat :=
  if l.isEmpty then none
  else if l.all isDigitChar then some (digitsVal l) else none

/-- Modelled from the spec: the coordinate pair `<row>,<column>`
(zero-based), whitespace around the comma tolerated (§4.1). -/
def parseCoordPair (l : List Char) : Option (Nat × Nat) :=
  match splitOnChar ',' l with
  | [a, b] =>
    match parseNatAll (trimSpaces a), parseNatAll (trimSpaces b) with
    | some r, some c => some (r, c)
    | _, _ => none
  | _ => none

/-- Modelled from the spec: the explicit size `<rowSpan>x<columnSpan>`
of the coordinate grammar (§4.1). -/
def parseSizePair (l : List Char) : Option (Nat × Nat) :=
  match splitOnChar 'x' l with
  | [a, b] =>
    match parseNatAll (trimSpaces a), parseNatAll (trimSpaces b) with
    | some rs, some cs => some (rs, cs)
    | _, _ => none
  | _ => none

/-- Modelled from the spec: the coordinate grammar (§4.1) —
`<row>,<column>` or `<row>,<column>:<rowSpan>x<columnSpan>`. -/
def parseCoordinate (l : List Char) : Option CellSpan :=
  match splitOnChar ':' l with
  | [rc] => (parseCoordPair rc).map fun p => ⟨p.1, p.2, 1, 1⟩
  | [rc, sz] =>
    match parseCoordPair rc, parseSizePair sz with
    | some p, some q => some ⟨p.1, p.2, q.1, q.2⟩
    | _, _ => none
  | _ => none

/-- Modelled from the spec: `parsePosition` (§4.1), named
`parseCellSpec` in the grid module's public surface (`session.ts`
re-exports it).  Both grammars are accepted; they are disjoint, a
coordinate text being recognizable by its comma. -/
def parseCellSpec (s : String) : Option CellSpan :=
  if s.toList.contains ',' then parseCoordinate s.toList
  else parseSpreadsheet s.toList

/-- The tests' name for `parseCellSpec` (`canvas-api` re-export). -/
def parseGridPosition : String → Option CellSpan := parseCellSpec

/-- The character run of a cell address: column letters then one-based
row digits. -/
def cellNameChars (r c : Nat) : List Char :=
  colLetters c ++ natDigits (r + 1)

/-- Modelled from the spec: `formatPosition` (§4.1), the tests'
`formatGridPosition` — canonical spreadsheet text, a single cell when
both spans are 1, else `TopLeft:BottomRight`. -/
def formatGridPosition (sp : CellSpan) : String :=
  if sp.rowSpan = 1 ∧ sp.columnSpan = 1 then
    String.mk (cellNameChars sp.startRow sp.startColumn)
  else
    String.mk (cellNameChars sp.startRow sp.startColumn ++
      ':' :: cellNameChars (sp.startRow + sp.rowSpan - 1) (sp.startColumn + sp.columnSpan - 1))

/-- The normalized form of a spreadsheet-notation text, written after
the round-trip claim's own words: letters case-folded to upper case and
a range's corners reordered to top-left:bottom-right (the letter and
digit runs of the given corners recombined by row/column order, nothing
re-encoded).  Used only to compare `formatGridPosition` after
`parseCellSpec` against the claim. -/
def normalizeSpreadsheet (s : String) : Option String :=
  match splitOnChar ':' s.toList with
  | [a] => some (String.mk (a.map upChar))
  | [a, b] =>
    match parseCorner a, parseCorner b with
    | some rc1, some rc2 =>
      let lettersA := (a.takeWhile isLetterChar).map upChar
      let lettersB := (b.takeWhile isLetterChar).map upChar
      let digitsA := a.dropWhile isLetterChar
      let digitsB := b.dropWhile isLetterChar
      let tl := (if rc1.2 ≤ rc2.2 then lettersA else lettersB) ++
                (if rc1.1 ≤ rc2.1 then digitsA else digitsB)
      let br := (if rc1.2 ≤ rc2.2 then lettersB else lettersA) ++
                (if rc1.1 ≤ rc2.1 then digitsB else digitsA)
      some (String.mk (tl ++ ':' :: br))
    | _, _ => none
  | _ => none

/-! ## Placement engine (§4.2) -/

/-- Modelled from the spec: the error taxonomy of §7 — parse, bounds
and overlap failures are values, never exceptions. -/
inductive GridError where
  | parseError
  | boundsError
  | overlapError
  deriving DecidableEq, Repr

/-- Two spans overlap when their row intervals and their column
intervals both intersect. -/
def spansOverlap (a b : CellSpan) : Bool :=
  a.startRow < b.startRow + b.rowSpan && b.startRow < a.startRow + a.rowSpan &&
  a.startColumn < b.startColumn + b.columnSpan && b.startColumn < a.startColumn + a.columnSpan

/-- A span covers the unit cell (r, c). -/
def coversCell (sp : CellSpan) (r c : Nat) : Bool :=
  sp.startRow ≤ r && r < sp.startRow + sp.rowSpan &&
  sp.startColumn ≤ c && c < sp.startColumn + sp.columnSpan

/-- Modelled from the spec: the bounds half of validation (§4.2 and the
cell-span invariant of §3) — positive extents that keep the span inside
the grid. -/
def boundsOk (cfg : GridConfig) (sp : CellSpan) : Bool :=
  1 ≤ sp.rowSpan && 1 ≤ sp.columnSpan &&
  sp.startRow + sp.rowSpan ≤ cfg.rows && sp.startColumn + sp.columnSpan ≤ cfg.columns

/-- Modelled from the spec: `validate` (§4.2) — a bounds error when the
span leaves the grid, else an overlap error when it collides with any
assignment not belonging to `excludeWindowId`. -/
def validateCellSpan (sp : CellSpan) (state : GridState)
    (excludeWindowId : Option String := none) : Option GridError :=
  if !boundsOk state.config sp then some .boundsError
  else if state.assignments.any (fun a =>
      if excludeWindowId = some a.windowId then false
      else spansOverlap sp a.cellSpan) then some .overlapError
  else none

/-- Modelled from the spec: the state-update half of `assign` (§4.2),
`session.ts`'s `grid.assignWindowToGrid` — drop any prior assignment of
the window, append the new one. -/
def assignWindowToGrid (windowId : String) (sp : CellSpan) (state : GridState) : GridState :=
  { state with assignments :=
      state.assignments.filter (fun a => !(a.windowId == windowId)) ++ [⟨windowId, sp⟩] }

/-- The result shape of `assignToGrid` as the unit tests observe it:
a success flag, the new state on success, an error otherwise. -/
structure AssignResult where
  success : Bool
  gridState : Option GridState
  error : Option GridError
  deriving DecidableEq, Repr

/-- Modelled from the spec: `assign` for a resolved span (§4.2) —
validate with the window's own prior assignment excluded; on success
replace-and-append, on failure report the error and produce no state. -/
def assignSpanToGrid (windowId : String) (sp : CellSpan) (state : GridState) : AssignResult :=
  match validateCellSpan sp state (some windowId) with
  | some e => ⟨false, none, some e⟩
  | none => ⟨true, some (assignWindowToGrid windowId sp state), none⟩

/-- Modelled from the spec: `assign` for a textual position (§4.2) —
resolve through the codec, then proceed as for a span. -/
def assignToGrid (windowId : String) (cellSpec : String) (state : GridState) : AssignResult :=
  match parseCellSpec cellSpec with
  | none => ⟨false, none, some .parseError⟩
  | some sp => assignSpanToGrid windowId sp state

/-- Modelled from the spec: `remove` (§4.2) — drop the window's
assignment if any; removing an absent window is a no-op. -/
def removeFromGrid (windowId : String) (state : GridState) : GridState :=
  { state with assignments := state.assignments.filter (fun a => !(a.windowId == windowId)) }

/-- Modelled from the spec: the span lookup (`getGridPosition` in the
tests, `getWindowCellSpan` in `session.ts`). -/
def getWindowCellSpan (windowId : String) (state : GridState) : Option CellSpan :=
  (state.assignments.find? (fun a => a.windowId == windowId)).map (·.cellSpan)

/-- Modelled from the spec: `swap` (§4.2) — exchange the two windows'
spans; per §4.2/§9 a missing side makes the swap a no-op. -/
def swapWindowPositions (windowId1 windowId2 : String) (state : GridState) : GridState :=
  match getWindowCellSpan windowId1 state, getWindowCellSpan windowId2 state with
  | some sp1, some sp2 =>
    { state with assignments := state.assignments.map (fun a =>
        if a.windowId = windowId1 then ⟨a.windowId, sp2⟩
        else if a.windowId = windowId2 then ⟨a.windowId, sp1⟩
        else a) }
  | _, _ => state

/-- A candidate span is free when it fits inside the grid and overlaps
no existing assignment. -/
def spanFree (state : GridState) (sp : CellSpan) : Bool :=
  boundsOk state.config sp &&
  state.assignments.all (fun a => !spansOverlap sp a.cellSpan)

/-- Modelled from the spec: `findAvailable` (§4.2), `session.ts`'s
`findAvailableSpan` — candidate top-left positions scanned in row-major
order (index i ↦ (i / columns, i % columns)), first free span of the
requested size, null when none exists. -/
def findAvailableSpan (rowSpan columnSpan : Nat) (state : GridState) : Option CellSpan :=
  ((List.range (state.config.rows * state.config.columns)).map
    (fun i => CellSpan.mk (i / state.config.columns) (i % state.config.columns)
      rowSpan columnSpan)).find? (spanFree state)

/-- A unit cell address, as the layout reporter lists them. -/
structure CellAddress where
  row : Nat
  column : Nat
  deriving DecidableEq, Repr

/-- Modelled from the spec: `availableCells` (§4.4) — every unit cell
of the grid covered by no assignment, in row-major order. -/
def getAvailableGridCells (state : GridState) : List CellAddress :=
  ((List.range (state.config.rows * state.config.columns)).map
    (fun i => CellAddress.mk (i / state.config.columns) (i % state.config.columns))).filter
    (fun cell => state.assignments.all (fun a => !coversCell a.cellSpan cell.row cell.column))

/-! ## Geometry resolver (§4.3) -/

/-- An absolute pixel rectangle.  Pixel arithmetic is exact rational
arithmetic here, matching the real division of the resolver's formula. -/
structure Rect where
  x : Rat
  y : Rat
  width : Rat
  height : Rat
  deriving DecidableEq, Repr

/-- A monitor's usable work area. -/
structure WorkArea where
  x : Rat
  y : Rat
  width : Rat
  height : Rat
  deriving DecidableEq, Repr

/-- Modelled from the spec: `calculateRect` (§4.3) — null when the
window has no assignment, else the pixel rectangle from the grid's full
dimensions, margins and gaps. -/
def calculateRect (windowId : String) (state : GridState) (workArea : WorkArea) :
    Option Rect :=
  match getWindowCellSpan windowId state with
  | none => none
  | some sp =>
    let cfg := state.config
    let gapH : Rat := cfg.cellGapHorizontal
    let gapV : Rat := cfg.cellGapVertical
    let cellWidth : Rat :=
      (workArea.width - cfg.marginLeft - cfg.marginRight - (cfg.columns - 1 : Nat) * gapH) /
        cfg.columns
    let cellHeight : Rat :=
      (workArea.height - cfg.marginTop - cfg.marginBottom - (cfg.rows - 1 : Nat) * gapV) /
        cfg.rows
    some { x := workArea.x + cfg.marginLeft + sp.startColumn * (cellWidth + gapH),
           y := workArea.y + cfg.marginTop + sp.startRow * (cellHeight + gapV),
           width := sp.columnSpan * cellWidth + (sp.columnSpan - 1 : Nat) * gapH,
           height := sp.rowSpan * cellHeight + (sp.rowSpan - 1 : Nat) * gapV }

/-! ## Reconfiguration (`configureGrid`, `session.ts` lines 525-563) -/

/-- The preservation loop of `configureGrid` (`session.ts` lines
548-555): each prior assignment is re-validated against the fresh state
built so far (no exclusion) and appended when still valid. -/
def preserveValidAssignments (fresh : GridState) (old : List Assignment) : GridState :=
  old.foldl (fun st a =>
    match validateCellSpan a.cellSpan st none with
    | none => { st with assignments := st.assignments ++ [a] }
    | some _ => st) fresh

/-- `configureGrid`'s grid-level effect (`session.ts` lines 544-555):
a fresh state under the new configuration, prior assignments preserved
only if they still validate, each re-checked in order. -/
def configureGridState (config : GridConfig) (state : GridState) : GridState :=
  preserveValidAssignments (createGridState state.desktopIndex config) state.assignments

/-! ## CLI cell rendering (`cli.ts` grid info action, lines 1421-1429) -/

/-- The CLI's inline cell-address rendering in the `grid info` action:
`String.fromCharCode(65 + c.column)` then the one-based row —
translated directly from `cli.ts`. -/
def cliCellName (cell : CellAddress) : String :=
  String.mk (Char.ofNat (65 + cell.column) :: natDigits (cell.row + 1))

/-! ## Session-level operations (`session.ts`) -/

/-- A session window as far as the grid is concerned: its id and its
recorded grid assignment (`CanvasWindow.gridAssignment`). -/
structure CanvasWindowM where
  id : String
  gridAssignment : Option CellSpan
  deriving DecidableEq, Repr

/-- The grid-relevant part of the persisted session state. -/
structure SessionStateM where
  desktopIndex : Nat
  windows : List CanvasWindowM
  gridConfig : Option GridConfig
  gridState : Option GridState
  deriving DecidableEq, Repr

/-- Errors thrown by session-level grid operations. -/
inductive SessionError where
  | windowNotFound
  | gridInitFailed
  | gridError (e : GridError)
  deriving DecidableEq, Repr

/-- `removeWindowFromGrid` (`session.ts` lines 659-682): with no grid
configured it returns untouched; else it clears the window's recorded
assignment, updates the grid state and persists.  The returned value is
the persisted session. -/
def removeWindowFromGridSession (windowId : String) (s : SessionStateM) : SessionStateM :=
  match s.gridState with
  | none => s
  | some g =>
    { s with
      windows := s.windows.map (fun w =>
        if w.id == windowId then { w with gridAssignment := none } else w),
      gridState := some (removeFromGrid windowId g) }

/-- The auto-initialization path of `assignWindowToCell`: `configureGrid`
with an empty override — existing config fields (or the defaults) and
re-validated prior assignments. -/
def autoConfigureSession (s : SessionStateM) : SessionStateM :=
  let cfg := s.gridConfig.getD DEFAULT_GRID_CONFIG
  let old := match s.gridState with
    | some g => g.assignments
    | none => []
  let g := preserveValidAssignments (createGridState s.desktopIndex cfg) old
  { s with gridConfig := some cfg, gridState := some g }

/-- `assignWindowToCell` (`session.ts` lines 580-654): find the window,
ensure a grid, parse the cell spec, validate with self-exclusion, then
update grid state and window record and persist.  An error leaves the
last persisted state untouched. -/
def assignWindowToCellSession (windowId cellSpec : String) (s : SessionStateM) :
    Except SessionError SessionStateM :=
  if s.windows.all (fun w => !(w.id == windowId)) then .error .windowNotFound
  else
    let s1 := if s.gridConfig.isNone || s.gridState.isNone then autoConfigureSession s else s
    match s1.gridState with
    | none => .error .gridInitFailed
    | some g =>
      match parseCellSpec cellSpec with
      | none => .error (.gridError .parseError)
      | some sp =>
        match validateCellSpan sp g (some windowId) with
        | some e => .error (.gridError e)
        | none =>
          .ok { s1 with
            gridState := some (assignWindowToGrid windowId sp g),
            windows := s1.windows.map (fun w =>
              if w.id == windowId then { w with gridAssignment := some sp } else w) }

/-- `moveWindowInGrid` (`session.ts` lines 825-835): remove from the
current cell first (persisting that removal), only then assign to the
new cell.  The pair holds the session as persisted when the operation
finishes or throws, and the error if one was thrown. -/
def moveWindowInGridSession (windowId newCellSpec : String) (s : SessionStateM) :
    SessionStateM × Option SessionError :=
  match assignWindowToCellSession windowId newCellSpec
      (removeWindowFromGridSession windowId s) with
  | .ok s2 => (s2, none)
  | .error e => (removeWindowFromGridSession windowId s, some e)

/-! ## Reachable grid states -/

/-- Grid states reachable through the engine's operations: a fresh
state, successful assignment (also reassignment), removal, swap, and
reconfiguration. -/
inductive ReachableGrid : GridState → Prop where
  | init (desktopIndex : Nat) (config : GridConfig) :
      ReachableGrid (createGridState desktopIndex config)
  | assignStep (w : String) (sp : CellSpan) (s s' : GridState) :
      ReachableGrid s → (assignSpanToGrid w sp s).gridState = some s' → ReachableGrid s'
  | removeStep (w : String) (s : GridState) :
      ReachableGrid s → ReachableGrid (removeFromGrid w s)
  | swapStep (w1 w2 : String) (s : GridState) :
      ReachableGrid s → ReachableGrid (swapWindowPositions w1 w2 s)
  | configureStep (cfg : GridConfig) (s : GridState) :
      ReachableGrid s → ReachableGrid (configureGridState cfg s)

/-- The engine's state invariant: window ids are distinct and spans are
pairwise non-overlapping. -/
def GridInvariant (s : GridState) : Prop :=
  s.assignments.Pairwise (fun a b =>
    a.windowId ≠ b.windowId ∧ spansOverlap a.cellSpan b.cellSpan = false)

/-! ## Codec lemmas -/

theorem colLettersAux_congr : ∀ (f g n : Nat), n < f → n < g →
    colLettersAux f n = colLettersAux g n := by
  intro f
  induction f with
  | zero => intro g n h _; omega
  | succ f ih =>
    intro g n hf hg
    cases g with
    | zero => omega
    | succ g =>
      simp only [colLettersAux]
      by_cases h : n < 26
      · simp [h]
      · have hd : n / 26 < n := Nat.div_lt_self (by omega) (by omega)
        simp only [h, if_false]
        rw [ih g (n / 26 - 1) (by omega) (by omega)]

theorem colLetters_eq (n : Nat) :
    colLetters n = if n < 26 then [Char.ofNat (65 + n)]
      else colLetters (n / 26 - 1) ++ [Char.ofNat (65 + n % 26)] := by
  show colLettersAux (n + 1) n = _
  simp only [colLettersAux]
  by_cases h : n < 26
  · simp [h]
  · have hd : n / 26 < n := Nat.div_lt_self (by omega) (by omega)
    simp only [h, if_false]
    rw [colLettersAux_congr n (n / 26 - 1 + 1) (n / 26 - 1) (by omega) (by omega)]
    rfl

theorem natDigitsAux_congr : ∀ (f g n : Nat), n < f → n < g →
    natDigitsAux f n = natDigitsAux g n := by
  intro f
  induction f with
  | zero => intro g n h _; omega
  | succ f ih =>
    intro g n hf hg
    cases g with
    | zero => omega
    | succ g =>
      simp only [natDigitsAux]
      by_cases h : n < 10
      · simp [h]
      · have hd : n / 10 < n := Nat.div_lt_self (by omega) (by omega)
        simp only [h, if_false]
        rw [ih g (n / 10) (by omega) (by omega)]

theorem natDigits_eq (n : Nat) :
    natDigits n = if n < 10 then [Char.ofNat (48 + n)]
      else natDigits (n / 10) ++ [Char.ofNat (48 + n % 10)] := by
  show natDigitsAux (n + 1) n = _
  simp only [natDigitsAux]
  by_cases h : n < 10
  · simp [h]
  · have hd : n / 10 < n := Nat.div_lt_self (by omega) (by omega)
    simp only [h, if_false]
    rw [natDigitsAux_congr n (n / 10 + 1) (n / 10) (by omega) (by omega)]
    rfl

theorem char_toNat_ofNat {m : Nat} (h : m < 55296) : (Char.ofNat m).toNat = m := by
  have hv : Nat.isValidChar m := Or.inl h
  simp only [Char.ofNat, hv, dite_true, Char.toNat, Char.ofNatAux]
  rfl

theorem char_eq_of_toNat_eq {c d : Char} (h : c.toNat = d.toNat) : c = d := by
  have h1 : Char.ofNat c.toNat = Char.ofNat d.toNat := by rw [h]
  rwa [Char.ofNat_toNat, Char.ofNat_toNat] at h1

theorem lettersVal_append_singleton (l : List Char) (c : Char) :
    lettersVal (l ++ [c]) = 26 * lettersVal l + (c.toNat - 64) := by
  simp [lettersVal, List.foldl_append]

theorem digitsVal_append_singleton (l : List Char) (c : Char) :
    digitsVal (l ++ [c]) = 10 * digitsVal l + (c.toNat - 48) := by
  simp [digitsVal, List.foldl_append]

theorem lettersVal_foldl_ge (l : List Char) (acc : Nat) (h : 1 ≤ acc) :
    1 ≤ l.foldl (fun acc c => 26 * acc + (c.toNat - 64)) acc := by
  induction l generalizing acc with
  | nil => exact h
  | cons c t ih =>
    simp only [List.foldl_cons]
    exact ih _ (by show 1 ≤ 26 * acc + (c.toNat - 64); omega)

theorem lettersVal_pos (l : List Char) (hne : l ≠ [])
    (hmem : ∀ c ∈ l, 65 ≤ c.toNat ∧ c.toNat ≤ 90) : 1 ≤ lettersVal l := by
  cases l with
  | nil => exact absurd rfl hne
  | cons c t =>
    have hc := hmem c (by simp)
    show 1 ≤ List.foldl _ _ (c :: t)
    simp only [List.foldl_cons]
    exact lettersVal_foldl_ge t _ (by omega)

theorem digitsVal_foldl_ge (l : List Char) (acc : Nat) (h : 1 ≤ acc) :
    1 ≤ l.foldl (fun acc c => 10 * acc + (c.toNat - 48)) acc := by
  induction l generalizing acc with
  | nil => exact h
  | cons c t ih =>
    simp only [List.foldl_cons]
    exact ih _ (by show 1 ≤ 10 * acc + (c.toNat - 48); omega)

theorem digitsVal_pos (l : List Char) (hne : l ≠ [])
    (hmem : ∀ c ∈ l, 48 ≤ c.toNat ∧ c.toNat ≤ 57)
    (hz : l.head? ≠ some '0') : 1 ≤ digitsVal l := by
  cases l with
  | nil => exact absurd rfl hne
  | cons c t =>
    have hc := hmem c (by simp)
    have hcz : c ≠ '0' := by
      intro h; exact hz (by simp [h])
    have hcz' : c.toNat ≠ 48 := by
      intro h
      exact hcz (char_eq_of_toNat_eq (by simp [h]))
    show 1 ≤ List.foldl _ _ (c :: t)
    simp only [List.foldl_cons]
    exact digitsVal_foldl_ge t _ (by omega)

theorem colLetters_lettersVal : ∀ (l : List Char), l ≠ [] →
    (∀ c ∈ l, 65 ≤ c.toNat ∧ c.toNat ≤ 90) → colLetters (lettersVal l - 1) = l := by
  intro l
  induction l using List.reverseRecOn with
  | nil => intro h _; exact absurd rfl h
  | append_singleton l c ih =>
    intro _ hmem
    have hc : 65 ≤ c.toNat ∧ c.toNat ≤ 90 := hmem c (by simp)
    rcases eq_or_ne l [] with rfl | hl
    · simp only [List.nil_append]
      have hv : lettersVal [c] = c.toNat - 64 := by
        simp [lettersVal]
      rw [hv, colLetters_eq]
      have hlt : c.toNat - 64 - 1 < 26 := by omega
      simp only [hlt, if_true]
      have : 65 + (c.toNat - 64 - 1) = c.toNat := by omega
      rw [this, Char.ofNat_toNat]
    · have hv1 : 1 ≤ lettersVal l :=
        lettersVal_pos l hl (fun x hx => hmem x (by simp [hx]))
      rw [lettersVal_append_singleton]
      set v := lettersVal l with hvdef
      have hn : 26 * v + (c.toNat - 64) - 1 = 26 * v + (c.toNat - 65) := by omega
      rw [hn, colLetters_eq]
      have hge : ¬(26 * v + (c.toNat - 65) < 26) := by omega
      simp only [hge, if_false]
      have hdiv : (26 * v + (c.toNat - 65)) / 26 = v := by
        rw [Nat.mul_add_div (by omega)]
        have : (c.toNat - 65) / 26 = 0 := Nat.div_eq_of_lt (by omega)
        omega
      have hmod : (26 * v + (c.toNat - 65)) % 26 = c.toNat - 65 := by
        rw [Nat.mul_add_mod]
        exact Nat.mod_eq_of_lt (by omega)
      rw [hdiv, hmod]
      rw [ih hl (fun x hx => hmem x (by simp [hx]))]
      have : 65 + (c.toNat - 65) = c.toNat := by omega
      rw [this, Char.ofNat_toNat]

theorem natDigits_digitsVal : ∀ (l : List Char), l ≠ [] →
    (∀ c ∈ l, 48 ≤ c.toNat ∧ c.toNat ≤ 57) → l.head? ≠ some '0' →
    natDigits (digitsVal l) = l := by
  intro l
  induction l using List.reverseRecOn with
  | nil => intro h _ _; exact absurd rfl h
  | append_singleton l c ih =>
    intro _ hmem hz
    have hc : 48 ≤ c.toNat ∧ c.toNat ≤ 57 := hmem c (by simp)
    rcases eq_or_ne l [] with rfl | hl
    · simp only [List.nil_append] at hz ⊢
      have hcz : c.toNat ≠ 48 := by
        intro h
        exact hz (by
          have : c = '0' := char_eq_of_toNat_eq (by simp [h])
          simp [this])
      have hv : digitsVal [c] = c.toNat - 48 := by
        simp [digitsVal]
      rw [hv, natDigits_eq]
      have hlt : c.toNat - 48 < 10 := by omega
      simp only [hlt, if_true]
      have : 48 + (c.toNat - 48) = c.toNat := by omega
      rw [this, Char.ofNat_toNat]
    · have hz' : l.head? ≠ some '0' := by
        cases l with
        | nil => exact absurd rfl hl
        | cons x t => simpa using hz
      have hv1 : 1 ≤ digitsVal l :=
        digitsVal_pos l hl (fun x hx => hmem x (by simp [hx])) hz'
      rw [digitsVal_append_singleton]
      set v := digitsVal l with hvdef
      rw [natDigits_eq]
      have hge : ¬(10 * v + (c.toNat - 48) < 10) := by omega
      simp only [hge, if_false]
      have hdiv : (10 * v + (c.toNat - 48)) / 10 = v := by
        rw [Nat.mul_add_div (by omega)]
        have : (c.toNat - 48) / 10 = 0 := Nat.div_eq_of_lt (by omega)
        omega
      have hmod : (10 * v + (c.toNat - 48)) % 10 = c.toNat - 48 := by
        rw [Nat.mul_add_mod]
        exact Nat.mod_eq_of_lt (by omega)
      rw [hdiv, hmod]
      rw [ih hl (fun x hx => hmem x (by simp [hx])) hz']
      have : 48 + (c.toNat - 48) = c.toNat := by omega
      rw [this, Char.ofNat_toNat]

theorem isLetterChar_iff (c : Char) : isLetterChar c = true ↔
    (65 ≤ c.toNat ∧ c.toNat ≤ 90) ∨ (97 ≤ c.toNat ∧ c.toNat ≤ 122) := by
  simp [isLetterChar]

theorem isDigitChar_iff (c : Char) : isDigitChar c = true ↔
    48 ≤ c.toNat ∧ c.toNat ≤ 57 := by
  simp [isDigitChar]

theorem upChar_toNat_range (c : Char) (h : isLetterChar c = true) :
    65 ≤ (upChar c).toNat ∧ (upChar c).toNat ≤ 90 := by
  rw [isLetterChar_iff] at h
  unfold upChar
  rcases h with h | h
  · rw [if_neg (by simp only [Bool.and_eq_true, decide_eq_true_eq, not_and]; omega)]
    exact h
  · rw [if_pos (by simp only [Bool.and_eq_true, decide_eq_true_eq]; omega)]
    rw [char_toNat_ofNat (by omega)]
    omega

theorem upChar_of_digit (c : Char) (h : 48 ≤ c.toNat ∧ c.toNat ≤ 57) :
    upChar c = c := by
  unfold upChar
  rw [if_neg (by simp only [Bool.and_eq_true, decide_eq_true_eq, not_and]; omega)]

theorem colLetters_props : ∀ n : Nat, lettersVal (colLetters n) = n + 1 ∧
    colLetters n ≠ [] ∧ ∀ c ∈ colLetters n, 65 ≤ c.toNat ∧ c.toNat ≤ 90 := by
  intro n
  induction n using Nat.strong_induction_on with
  | _ n ih =>
    rw [colLetters_eq]
    by_cases h : n < 26
    · simp only [h, if_true]
      refine ⟨?_, by simp, ?_⟩
      · have : (Char.ofNat (65 + n)).toNat = 65 + n := char_toNat_ofNat (by omega)
        simp [lettersVal, this]
        omega
      · intro c hc
        simp only [List.mem_singleton] at hc
        subst hc
        rw [char_toNat_ofNat (by omega)]
        omega
    · simp only [h, if_false]
      have hd : n / 26 < n := Nat.div_lt_self (by omega) (by omega)
      have hm : n / 26 - 1 < n := by omega
      obtain ⟨ihv, ihne, ihmem⟩ := ih _ hm
      have hmod : (Char.ofNat (65 + n % 26)).toNat = 65 + n % 26 :=
        char_toNat_ofNat (by have := Nat.mod_lt n (show 0 < 26 by omega); omega)
      refine ⟨?_, by simp, ?_⟩
      · rw [lettersVal_append_singleton, ihv, hmod]
        have h26 : 1 ≤ n / 26 := Nat.le_div_iff_mul_le (by omega) |>.mpr (by omega)
        have hdm := Nat.div_add_mod n 26
        have hmlt : n % 26 < 26 := Nat.mod_lt n (by omega)
        omega
      · intro c hc
        rcases List.mem_append.mp hc with hc | hc
        · exact ihmem c hc
        · simp only [List.mem_singleton] at hc
          subst hc
          rw [hmod]
          have : n % 26 < 26 := Nat.mod_lt n (by omega)
          omega

theorem natDigits_props : ∀ n : Nat, digitsVal (natDigits n) = n ∧
    natDigits n ≠ [] ∧ (∀ c ∈ natDigits n, 48 ≤ c.toNat ∧ c.toNat ≤ 57) ∧
    (1 ≤ n → (natDigits n).head? ≠ some '0') := by
  intro n
  induction n using Nat.strong_induction_on with
  | _ n ih =>
    rw [natDigits_eq]
    by_cases h : n < 10
    · simp only [h, if_true]
      have htn : (Char.ofNat (48 + n)).toNat = 48 + n := char_toNat_ofNat (by omega)
      refine ⟨by simp [digitsVal, htn], by simp, ?_, ?_⟩
      · intro c hc
        simp only [List.mem_singleton] at hc
        subst hc
        rw [htn]
        omega
      · intro hn hcontra
        simp only [List.head?_cons, Option.some_inj] at hcontra
        have : (Char.ofNat (48 + n)).toNat = ('0').toNat := by rw [hcontra]
        rw [htn] at this
        have h0 : ('0').toNat = 48 := rfl
        omega
    · simp only [h, if_false]
      have hd : n / 10 < n := Nat.div_lt_self (by omega) (by omega)
      obtain ⟨ihv, ihne, ihmem, ihz⟩ := ih _ hd
      have hmod : (Char.ofNat (48 + n % 10)).toNat = 48 + n % 10 :=
        char_toNat_ofNat (by have := Nat.mod_lt n (show 0 < 10 by omega); omega)
      have h10 : 1 ≤ n / 10 := Nat.le_div_iff_mul_le (by omega) |>.mpr (by omega)
      have hdm := Nat.div_add_mod n 10
      have hmlt : n % 10 < 10 := Nat.mod_lt n (by omega)
      refine ⟨?_, by simp, ?_, ?_⟩
      · rw [digitsVal_append_singleton, ihv, hmod]
        omega
      · intro c hc
        rcases List.mem_append.mp hc with hc | hc
        · exact ihmem c hc
        · simp only [List.mem_singleton] at hc
          subst hc
          rw [hmod]
          omega
      · intro _
        rw [List.head?_append]
        cases hh : (natDigits (n / 10)).head? with
        | none => exact absurd (List.head?_eq_none_iff.mp hh) ihne
        | some x =>
          simp only [Option.or_some]
          exact ihz h10 |>.imp (fun he => hh ▸ he) |> fun f => by
            intro hcontra
            exact (ihz h10) (by rw [hh, hcontra])

theorem takeWhile_append_all {α : Type} (p : α → Bool) (l r : List α)
    (h : ∀ x ∈ l, p x = true) : (l ++ r).takeWhile p = l ++ r.takeWhile p := by
  induction l with
  | nil => simp
  | cons c t ih =>
    have hc : p c = true := h c (by simp)
    simp only [List.cons_append, List.takeWhile_cons, hc, if_true]
    rw [ih (fun x hx => h x (by simp [hx]))]

theorem dropWhile_append_all {α : Type} (p : α → Bool) (l r : List α)
    (h : ∀ x ∈ l, p x = true) : (l ++ r).dropWhile p = r.dropWhile p := by
  induction l with
  | nil => simp
  | cons c t ih =>
    have hc : p c = true := h c (by simp)
    simp only [List.cons_append, List.dropWhile_cons, hc, if_true]
    exact ih (fun x hx => h x (by simp [hx]))

theorem takeWhile_head_false {α : Type} (p : α → Bool) (c : α) (t : List α)
    (h : p c = false) : (c :: t).takeWhile p = [] := by
  simp [List.takeWhile_cons, h]

theorem dropWhile_head_false {α : Type} (p : α → Bool) (c : α) (t : List α)
    (h : p c = false) : (c :: t).dropWhile p = c :: t := by
  simp [List.dropWhile_cons, h]

theorem splitOnChar_ne_nil (sep : Char) (l : List Char) : splitOnChar sep l ≠ [] := by
  cases l with
  | nil => simp [splitOnChar]
  | cons c rest =>
    simp only [splitOnChar]
    by_cases h : c = sep
    · simp [h]
    · simp only [h, if_false]
      cases splitOnChar sep rest with
      | nil => simp
      | cons x t => simp

theorem splitOnChar_single (sep : Char) : ∀ (l x : List Char),
    splitOnChar sep l = [x] → l = x := by
  intro l
  induction l with
  | nil =>
    intro x h
    simp only [splitOnChar, List.cons.injEq] at h
    exact h.1
  | cons c rest ih =>
    intro x h
    simp only [splitOnChar] at h
    by_cases hc : c = sep
    · rw [if_pos hc] at h
      simp only [List.cons.injEq] at h
      exact absurd h.2 (splitOnChar_ne_nil sep rest)
    · rw [if_neg hc] at h
      cases hr : splitOnChar sep rest with
      | nil => exact absurd hr (splitOnChar_ne_nil sep rest)
      | cons y t =>
        rw [hr] at h
        simp only [List.cons.injEq] at h
        obtain ⟨hx, ht⟩ := h
        subst ht
        have h2 : rest = y := ih y hr
        rw [h2]
        exact hx

theorem splitOnChar_pair (sep : Char) : ∀ (l a b : List Char),
    splitOnChar sep l = [a, b] → l = a ++ sep :: b := by
  intro l
  induction l with
  | nil =>
    intro a b h
    simp [splitOnChar] at h
  | cons c rest ih =>
    intro a b h
    simp only [splitOnChar] at h
    by_cases hc : c = sep
    · rw [if_pos hc] at h
      simp only [List.cons.injEq] at h
      obtain ⟨ha, hr⟩ := h
      have h2 : rest = b := splitOnChar_single sep rest b hr
      subst h2
      rw [← ha, hc]
      simp
    · rw [if_neg hc] at h
      cases hr : splitOnChar sep rest with
      | nil => exact absurd hr (splitOnChar_ne_nil sep rest)
      | cons y t =>
        rw [hr] at h
        simp only [List.cons.injEq] at h
        obtain ⟨ha, ht⟩ := h
        subst ht
        have : rest = y ++ sep :: b := ih y b hr
        subst ha
        simp [this]

theorem parseCorner_char_facts {l : List Char} {r c : Nat}
    (h : parseCorner l = some (r, c)) :
    l.takeWhile isLetterChar ≠ [] ∧ l.dropWhile isLetterChar ≠ [] ∧
    (∀ x ∈ l.dropWhile isLetterChar, isDigitChar x = true) ∧
    (l.dropWhile isLetterChar).head? ≠ some '0' ∧
    r = digitsVal (l.dropWhile isLetterChar) - 1 ∧
    c = lettersVal ((l.takeWhile isLetterChar).map upChar) - 1 := by
  simp only [parseCorner] at h
  by_cases h1 : (l.takeWhile isLetterChar).isEmpty = true
  · rw [if_pos h1] at h; cases h
  · rw [if_neg h1] at h
    by_cases h2 : (l.dropWhile isLetterChar).isEmpty = true
    · rw [if_pos h2] at h; cases h
    · rw [if_neg h2] at h
      by_cases h3 : (!(l.dropWhile isLetterChar).all isDigitChar) = true
      · rw [if_pos h3] at h; cases h
      · rw [if_neg h3] at h
        by_cases h4 : (l.dropWhile isLetterChar).head? = some '0'
        · rw [if_pos h4] at h; cases h
        · rw [if_neg h4] at h
          injection h with h5
          rw [Prod.mk.injEq] at h5
          refine ⟨?_, ?_, ?_, h4, h5.1.symm, h5.2.symm⟩
          · intro hx
            exact h1 (by simp [hx])
          · intro hx
            exact h2 (by simp [hx])
          · intro x hx
            have hall : (l.dropWhile isLetterChar).all isDigitChar = true := by
              cases hb : (l.dropWhile isLetterChar).all isDigitChar with
              | false => exact absurd (by simp [hb]) h3
              | true => rfl
            exact List.all_eq_true.mp hall x hx

theorem parseCorner_render {l : List Char} {r c : Nat}
    (h : parseCorner l = some (r, c)) :
    colLetters c = (l.takeWhile isLetterChar).map upChar ∧
    natDigits (r + 1) = l.dropWhile isLetterChar := by
  obtain ⟨hl, hd, hall, hz, hr, hc⟩ := parseCorner_char_facts h
  have hletters : ∀ x ∈ (l.takeWhile isLetterChar).map upChar,
      65 ≤ x.toNat ∧ x.toNat ≤ 90 := by
    intro x hx
    obtain ⟨y, hy, rfl⟩ := List.mem_map.mp hx
    exact upChar_toNat_range y (List.mem_takeWhile_imp hy)
  have hlne : (l.takeWhile isLetterChar).map upChar ≠ [] := by simpa using hl
  constructor
  · rw [hc]
    exact colLetters_lettersVal _ hlne hletters
  · have hdm : ∀ x ∈ l.dropWhile isLetterChar, 48 ≤ x.toNat ∧ x.toNat ≤ 57 :=
      fun x hx => (isDigitChar_iff x).mp (hall x hx)
    have hdpos := digitsVal_pos _ hd hdm hz
    have heq : r + 1 = digitsVal (l.dropWhile isLetterChar) := by omega
    rw [heq]
    exact natDigits_digitsVal _ hd hdm hz

theorem parseCorner_not_comma {l : List Char} {r c : Nat}
    (h : parseCorner l = some (r, c)) : ∀ x ∈ l, x ≠ ',' := by
  obtain ⟨hl, hd, hall, _, _, _⟩ := parseCorner_char_facts h
  intro x hx hcomma
  subst hcomma
  rw [← List.takeWhile_append_dropWhile isLetterChar l] at hx
  have h44 : (',').toNat = 44 := rfl
  rcases List.mem_append.mp hx with hx | hx
  · have := (isLetterChar_iff _).mp (List.mem_takeWhile_imp hx)
    omega
  · have := (isDigitChar_iff _).mp (hall _ hx)
    omega

theorem parseSpreadsheet_inv {l : List Char} {sp : CellSpan}
    (h : parseSpreadsheet l = some sp) :
    (∃ a r c, splitOnChar ':' l = [a] ∧ parseCorner a = some (r, c) ∧
      sp = ⟨r, c, 1, 1⟩) ∨
    (∃ a b r1 c1 r2 c2, splitOnChar ':' l = [a, b] ∧
      parseCorner a = some (r1, c1) ∧ parseCorner b = some (r2, c2) ∧
      sp = ⟨min r1 r2, min c1 c2, max r1 r2 + 1 - min r1 r2,
            max c1 c2 + 1 - min c1 c2⟩) := by
  unfold parseSpreadsheet at h
  split at h
  · rename_i a heq
    cases hca : parseCorner a with
    | none => rw [hca] at h; cases h
    | some rc =>
      rw [hca] at h
      simp only [Option.map_some', Option.some_inj] at h
      exact Or.inl ⟨a, rc.1, rc.2, heq, by rw [hca], h.symm⟩
  · rename_i a b heq
    split at h
    · rename_i rc1 rc2 hca hcb
      simp only [Option.some_inj] at h
      exact Or.inr ⟨a, b, rc1.1, rc1.2, rc2.1, rc2.2, heq, by rw [hca], by rw [hcb], h.symm⟩
    · cases h
  · cases h

theorem parseSpreadsheet_no_comma {l : List Char} {sp : CellSpan}
    (h : parseSpreadsheet l = some sp) : ∀ x ∈ l, x ≠ ',' := by
  rcases parseSpreadsheet_inv h with ⟨a, r, c, hsplit, hca, _⟩ |
    ⟨a, b, r1, c1, r2, c2, hsplit, hca, hcb, _⟩
  · have hla : l = a := splitOnChar_single ':' l a hsplit
    subst hla
    exact parseCorner_not_comma hca
  · have hlab : l = a ++ ':' :: b := splitOnChar_pair ':' l a b hsplit
    subst hlab
    intro x hx
    rcases List.mem_append.mp hx with hx | hx
    · exact parseCorner_not_comma hca x hx
    · rcases List.mem_cons.mp hx with rfl | hx
      · intro hcontra; cases hcontra
      · exact parseCorner_not_comma hcb x hx

theorem parseCellSpec_of_spreadsheet {s : String} {sp : CellSpan}
    (h : parseSpreadsheet s.toList = some sp) : parseCellSpec s = some sp := by
  unfold parseCellSpec
  rw [if_neg, h]
  intro hc
  have hmem : ',' ∈ s.toList := by
    simpa [List.contains] using hc
  exact parseSpreadsheet_no_comma h ',' hmem rfl

theorem upChar_of_upper (c : Char) (h : 65 ≤ c.toNat ∧ c.toNat ≤ 90) : upChar c = c := by
  unfold upChar
  rw [if_neg (by simp only [Bool.and_eq_true, decide_eq_true_eq, not_and]; omega)]

theorem isLetterChar_false_of_digit (c : Char) (h : 48 ≤ c.toNat ∧ c.toNat ≤ 57) :
    isLetterChar c = false := by
  cases hb : isLetterChar c with
  | false => rfl
  | true =>
    have := (isLetterChar_iff c).mp hb
    omega

theorem isLetterChar_true_of_upper (c : Char) (h : 65 ≤ c.toNat ∧ c.toNat ≤ 90) :
    isLetterChar c = true :=
  (isLetterChar_iff c).mpr (Or.inl h)

theorem isDigitChar_true_of_range (c : Char) (h : 48 ≤ c.toNat ∧ c.toNat ≤ 57) :
    isDigitChar c = true :=
  (isDigitChar_iff c).mpr h

theorem splitOnChar_no_sep (sep : Char) : ∀ l : List Char,
    (∀ x ∈ l, x ≠ sep) → splitOnChar sep l = [l] := by
  intro l
  induction l with
  | nil => intro _; rfl
  | cons c rest ih =>
    intro h
    have hc : c ≠ sep := h c (by simp)
    simp only [splitOnChar]
    rw [if_neg hc, ih (fun x hx => h x (by simp [hx]))]

theorem map_upChar_id_of_upper (l : List Char)
    (h : ∀ x ∈ l, 65 ≤ x.toNat ∧ x.toNat ≤ 90) : l.map upChar = l := by
  induction l with
  | nil => rfl
  | cons c t ih =>
    simp only [List.map_cons]
    rw [upChar_of_upper c (h c (by simp)), ih (fun x hx => h x (by simp [hx]))]

theorem map_upChar_id_of_digits (l : List Char)
    (h : ∀ x ∈ l, 48 ≤ x.toNat ∧ x.toNat ≤ 57) : l.map upChar = l := by
  induction l with
  | nil => rfl
  | cons c t ih =>
    simp only [List.map_cons]
    rw [upChar_of_digit c (h c (by simp)), ih (fun x hx => h x (by simp [hx]))]

/-- The cell-name character run of (r, c) parses back to the corner
(r, c): the format-then-parse inverse direction, at corner level. -/
theorem parseCorner_cellName (r c : Nat) :
    parseCorner (cellNameChars r c) = some (r, c) := by
  obtain ⟨hlv, hlne, hlmem⟩ := colLetters_props c
  obtain ⟨hdv, hdne, hdmem, hdz⟩ := natDigits_props (r + 1)
  have hdhead : ∃ d t, natDigits (r + 1) = d :: t := by
    cases hnd : natDigits (r + 1) with
    | nil => exact absurd hnd hdne
    | cons d t => exact ⟨d, t, rfl⟩
  obtain ⟨d, t, hdt⟩ := hdhead
  have hdfacts : 48 ≤ d.toNat ∧ d.toNat ≤ 57 := hdmem d (by rw [hdt]; simp)
  have htake : (cellNameChars r c).takeWhile isLetterChar = colLetters c := by
    unfold cellNameChars
    rw [takeWhile_append_all isLetterChar _ _
      (fun x hx => isLetterChar_true_of_upper x (hlmem x hx))]
    rw [hdt, takeWhile_head_false isLetterChar d t (isLetterChar_false_of_digit d hdfacts)]
    simp
  have hdrop : (cellNameChars r c).dropWhile isLetterChar = natDigits (r + 1) := by
    unfold cellNameChars
    rw [dropWhile_append_all isLetterChar _ _
      (fun x hx => isLetterChar_true_of_upper x (hlmem x hx))]
    rw [hdt, dropWhile_head_false isLetterChar d t (isLetterChar_false_of_digit d hdfacts)]
  unfold parseCorner
  rw [htake, hdrop]
  rw [if_neg (by simp [hlne]), if_neg (by simp [hdne]),
    if_neg (by simp; exact fun x hx => isDigitChar_true_of_range x (hdmem x hx)),
    if_neg (hdz (by omega))]
  rw [map_upChar_id_of_upper _ hlmem, hlv, hdv]
  simp

/-- Cell-name characters contain no separator or comma. -/
theorem cellNameChars_no_char (r c : Nat) (ch : Char)
    (hch : ch.toNat < 48 ∨ (57 < ch.toNat ∧ ch.toNat < 65) ∨ 90 < ch.toNat) :
    ∀ x ∈ cellNameChars r c, x ≠ ch := by
  obtain ⟨_, _, hlmem⟩ := colLetters_props c
  obtain ⟨_, _, hdmem, _⟩ := natDigits_props (r + 1)
  intro x hx hcontra
  subst hcontra
  rcases List.mem_append.mp hx with hx | hx
  · have := hlmem x hx
    omega
  · have := hdmem x hx
    omega

/-- Formatted single-cell text parses back to the cell, through the
public parser. -/
theorem parseGridPosition_cellName (r c : Nat) :
    parseGridPosition (String.mk (cellNameChars r c)) = some ⟨r, c, 1, 1⟩ := by
  show parseCellSpec _ = _
  unfold parseCellSpec
  have htl : (String.mk (cellNameChars r c)).toList = cellNameChars r c := rfl
  rw [htl]
  have hnc : (cellNameChars r c).contains ',' = false := by
    cases hb : (cellNameChars r c).contains ',' with
    | false => rfl
    | true =>
      have hmem : ',' ∈ cellNameChars r c := by simpa [List.contains] using hb
      have h44 : (',').toNat = 44 := rfl
      exact absurd rfl (cellNameChars_no_char r c ',' (by omega) ',' hmem)
  rw [hnc]
  simp only [Bool.false_eq_true, if_false]
  unfold parseSpreadsheet
  have hsplit : splitOnChar ':' (cellNameChars r c) = [cellNameChars r c] := by
    apply splitOnChar_no_sep
    have h58 : (':').toNat = 58 := rfl
    exact cellNameChars_no_char r c ':' (by omega)
  rw [hsplit]
  show Option.map (fun rc : Nat × Nat =>
      ({ startRow := rc.1, startColumn := rc.2, rowSpan := 1, columnSpan := 1 } : CellSpan))
      (parseCorner (cellNameChars r c)) = some ⟨r, c, 1, 1⟩
  rw [parseCorner_cellName]
  rfl

/-- The round-trip law at range level: formatting the span parsed from
accepted spreadsheet text reproduces the text's normalized form, except
that a degenerate range (two corners naming one cell) is excluded by
hypothesis, since the formatter then emits the single-cell form. -/
theorem formatGridPosition_normalize {s : String} {sp : CellSpan}
    (h : parseSpreadsheet s.toList = some sp)
    (hnd : s.toList.contains ':' = true → 1 < sp.rowSpan ∨ 1 < sp.columnSpan) :
    normalizeSpreadsheet s = some (formatGridPosition sp) := by
  rcases parseSpreadsheet_inv h with ⟨a, r, c, hsplit, hca, hsp⟩ |
    ⟨a, b, r1, c1, r2, c2, hsplit, hca, hcb, hsp⟩
  · -- single cell
    obtain ⟨hletters, hdigits⟩ := parseCorner_render hca
    obtain ⟨_, _, hall, _, _, _⟩ := parseCorner_char_facts hca
    unfold normalizeSpreadsheet
    rw [hsplit]
    subst hsp
    unfold formatGridPosition
    rw [if_pos (by constructor <;> rfl)]
    have hmap : a.map upChar =
        (a.takeWhile isLetterChar).map upChar ++ a.dropWhile isLetterChar := by
      conv_lhs => rw [← List.takeWhile_append_dropWhile isLetterChar a]
      rw [List.map_append]
      congr 1
      exact map_upChar_id_of_digits _
        (fun x hx => (isDigitChar_iff x).mp (hall x hx))
    simp only [Option.some_inj]
    congr 1
    rw [hmap]
    unfold cellNameChars
    rw [hletters, hdigits]
  · -- range
    obtain ⟨hlettersA, hdigitsA⟩ := parseCorner_render hca
    obtain ⟨hlettersB, hdigitsB⟩ := parseCorner_render hcb
    have hlab : s.toList = a ++ ':' :: b := splitOnChar_pair ':' s.toList a b hsplit
    have hcolon : s.toList.contains ':' = true := by
      have hmem : ':' ∈ s.toList := by rw [hlab]; simp
      simpa [List.contains] using hmem
    have hspan : 1 < sp.rowSpan ∨ 1 < sp.columnSpan := hnd hcolon
    have hne : ¬(sp.rowSpan = 1 ∧ sp.columnSpan = 1) := by
      rcases hspan with hs | hs <;> (rintro ⟨h1, h2⟩; omega)
    have e1 : sp.startRow = min r1 r2 := by rw [hsp]
    have e2 : sp.startColumn = min c1 c2 := by rw [hsp]
    have e3 : sp.startRow + sp.rowSpan - 1 = max r1 r2 := by
      rw [hsp]
      show min r1 r2 + (max r1 r2 + 1 - min r1 r2) - 1 = max r1 r2
      omega
    have e4 : sp.startColumn + sp.columnSpan - 1 = max c1 c2 := by
      rw [hsp]
      show min c1 c2 + (max c1 c2 + 1 - min c1 c2) - 1 = max c1 c2
      omega
    have hfmt : formatGridPosition sp =
        String.mk (cellNameChars (min r1 r2) (min c1 c2) ++
          ':' :: cellNameChars (max r1 r2) (max c1 c2)) := by
      unfold formatGridPosition
      rw [if_neg hne, e3, e4, e1, e2]
    have hnorm : normalizeSpreadsheet s = some (String.mk
        (((if c1 ≤ c2 then (a.takeWhile isLetterChar).map upChar
            else (b.takeWhile isLetterChar).map upChar) ++
          (if r1 ≤ r2 then a.dropWhile isLetterChar else b.dropWhile isLetterChar)) ++ ':' ::
         ((if c1 ≤ c2 then (b.takeWhile isLetterChar).map upChar
            else (a.takeWhile isLetterChar).map upChar) ++
          (if r1 ≤ r2 then b.dropWhile isLetterChar else a.dropWhile isLetterChar)))) := by
      unfold normalizeSpreadsheet
      rw [hsplit]
      show (match parseCorner a, parseCorner b with
        | some rc1, some rc2 =>
          some (String.mk
            (((if rc1.2 ≤ rc2.2 then (a.takeWhile isLetterChar).map upChar
                else (b.takeWhile isLetterChar).map upChar) ++
              (if rc1.1 ≤ rc2.1 then a.dropWhile isLetterChar
                else b.dropWhile isLetterChar)) ++ ':' ::
             ((if rc1.2 ≤ rc2.2 then (b.takeWhile isLetterChar).map upChar
                else (a.takeWhile isLetterChar).map upChar) ++
              (if rc1.1 ≤ rc2.1 then b.dropWhile isLetterChar
                else a.dropWhile isLetterChar))))
        | _, _ => none) = _
      rw [hca, hcb]
    rw [hnorm, hfmt]
    simp only [Option.some_inj]
    congr 1
    unfold cellNameChars
    by_cases hcc : c1 ≤ c2 <;> by_cases hrr : r1 ≤ r2
    · simp only [min_eq_left hcc, min_eq_left hrr, max_eq_right hcc, max_eq_right hrr,
        if_pos hcc, if_pos hrr, hlettersA, hdigitsA, hlettersB, hdigitsB,
        List.append_assoc]
    · simp only [min_eq_left hcc, min_eq_right (show r2 ≤ r1 by omega),
        max_eq_right hcc, max_eq_left (show r2 ≤ r1 by omega),
        if_pos hcc, if_neg hrr, hlettersA, hdigitsA, hlettersB, hdigitsB,
        List.append_assoc]
    · simp only [min_eq_right (show c2 ≤ c1 by omega), min_eq_left hrr,
        max_eq_left (show c2 ≤ c1 by omega), max_eq_right hrr,
        if_neg hcc, if_pos hrr, hlettersA, hdigitsA, hlettersB, hdigitsB,
        List.append_assoc]
    · simp only [min_eq_right (show c2 ≤ c1 by omega), min_eq_right (show r2 ≤ r1 by omega),
        max_eq_left (show c2 ≤ c1 by omega), max_eq_left (show r2 ≤ r1 by omega),
        if_neg hcc, if_neg hrr, hlettersA, hdigitsA, hlettersB, hdigitsB,
        List.append_assoc]

/-- C2 (amended): for every spreadsheet-notation text accepted by the
parser, formatting the parsed span reproduces the normalized text
(letters case-folded to upper case, range corners reordered to
top-left:bottom-right) — except that a range whose two corners denote
the same single cell is formatted in single-cell form; concretely,
parse "a1:B2" yields the span (0,0,2,2) and that span formats back to
"A1:B2". -/
theorem parse_format_roundtrip_normalized :
    (∀ (s : String) (sp : CellSpan), parseSpreadsheet s.toList = some sp →
      (s.toList.contains ':' = true → 1 < sp.rowSpan ∨ 1 < sp.columnSpan) →
      parseGridPosition s = some sp ∧
      normalizeSpreadsheet s = some (formatGridPosition sp)) ∧
    parseGridPosition "a1:B2" = some ⟨0, 0, 2, 2⟩ ∧
    formatGridPosition ⟨0, 0, 2, 2⟩ = "A1:B2" := by
  refine ⟨?_, by decide, by decide⟩
  intro s sp h hnd
  exact ⟨parseCellSpec_of_spreadsheet h, formatGridPosition_normalize h hnd⟩

/-- Witness for the round-trip law at the concrete input "a1:B2". -/
theorem parse_format_roundtrip_normalized_witness :
    parseGridPosition "a1:B2" = some ⟨0, 0, 2, 2⟩ ∧
    normalizeSpreadsheet "a1:B2" = some (formatGridPosition ⟨0, 0, 2, 2⟩) :=
  parse_format_roundtrip_normalized.1 "a1:B2" ⟨0, 0, 2, 2⟩ (by decide) (by decide)

/-- C2 counterexample: the degenerate range "A1:A1" is accepted by the
parser, its normalized form (case fold, corner reorder) is "A1:A1"
itself, yet formatting the parsed span yields the single-cell text
"A1", so format-after-parse differs from the normalized input. -/
theorem roundtrip_fails_on_degenerate_range :
    parseGridPosition "A1:A1" = some ⟨0, 0, 1, 1⟩ ∧
    normalizeSpreadsheet "A1:A1" = some "A1:A1" ∧
    formatGridPosition ⟨0, 0, 1, 1⟩ = "A1" ∧
    formatGridPosition ⟨0, 0, 1, 1⟩ ≠ "A1:A1" := by
  refine ⟨by decide, by decide, by decide, by decide⟩

/-- C7: the parser is zero-based — "A1" parses to the span with
startRow 0, startColumn 0 and unit extents; in general the formatted
cell name of zero-based (r, c) parses back to exactly (r, c). -/
theorem parse_zero_based :
    parseGridPosition "A1" = some ⟨0, 0, 1, 1⟩ ∧
    (∀ r c : Nat, parseGridPosition (String.mk (cellNameChars r c)) = some ⟨r, c, 1, 1⟩) :=
  ⟨by decide, parseGridPosition_cellName⟩

/-! ## Placement engine lemmas -/

theorem spansOverlap_comm (a b : CellSpan) : spansOverlap a b = spansOverlap b a := by
  rw [Bool.eq_iff_iff]
  unfold spansOverlap
  simp only [Bool.and_eq_true, decide_eq_true_eq]
  constructor
  · rintro ⟨⟨⟨h1, h2⟩, h3⟩, h4⟩
    exact ⟨⟨⟨h2, h1⟩, h4⟩, h3⟩
  · rintro ⟨⟨⟨h1, h2⟩, h3⟩, h4⟩
    exact ⟨⟨⟨h2, h1⟩, h4⟩, h3⟩

theorem sharesCell_overlap {a b : CellSpan} {r c : Nat}
    (ha : coversCell a r c = true) (hb : coversCell b r c = true) :
    spansOverlap a b = true := by
  unfold coversCell at ha hb
  unfold spansOverlap
  simp only [Bool.and_eq_true, decide_eq_true_eq] at ha hb ⊢
  omega

theorem validateCellSpan_none_iff (sp : CellSpan) (state : GridState) (excl : Option String) :
    validateCellSpan sp state excl = none ↔
    (boundsOk state.config sp = true ∧
      ∀ a ∈ state.assignments, excl ≠ some a.windowId →
        spansOverlap sp a.cellSpan = false) := by
  unfold validateCellSpan
  cases hb : boundsOk state.config sp with
  | false => simp [hb]
  | true =>
    simp only [hb, Bool.not_true, Bool.false_eq_true, if_false, true_and]
    cases ha : state.assignments.any (fun a =>
        if excl = some a.windowId then false else spansOverlap sp a.cellSpan) with
    | true =>
      simp only [if_true, reduceCtorEq, false_iff, not_forall]
      obtain ⟨a, hmem, hp⟩ := List.any_eq_true.mp ha
      by_cases hex : excl = some a.windowId
      · rw [if_pos hex] at hp; cases hp
      · rw [if_neg hex] at hp
        exact ⟨a, hmem, hex, by simp [hp]⟩
    | false =>
      simp only [Bool.false_eq_true, if_false, true_iff]
      intro a hmem hex
      have := List.any_eq_false.mp ha a hmem
      rw [if_neg hex] at this
      simpa using this

theorem validateCellSpan_some_cases {sp : CellSpan} {state : GridState} {e : GridError}
    (h : validateCellSpan sp state none = some e) :
    boundsOk state.config sp = false ∨
    ∃ b ∈ state.assignments, spansOverlap sp b.cellSpan = true := by
  unfold validateCellSpan at h
  cases hb : boundsOk state.config sp with
  | false => exact Or.inl rfl
  | true =>
    rw [hb] at h
    simp only [Bool.not_true, Bool.false_eq_true, if_false] at h
    cases ha : state.assignments.any (fun a =>
        if (none : Option String) = some a.windowId then false
        else spansOverlap sp a.cellSpan) with
    | false => rw [ha] at h; simp at h
    | true =>
      obtain ⟨b, hmem, hp⟩ := List.any_eq_true.mp ha
      rw [if_neg (by simp)] at hp
      exact Or.inr ⟨b, hmem, hp⟩

theorem getWindowCellSpan_some {w : String} {s : GridState} {sp : CellSpan}
    (h : getWindowCellSpan w s = some sp) :
    ∃ a ∈ s.assignments, a.windowId = w ∧ a.cellSpan = sp := by
  unfold getWindowCellSpan at h
  cases hf : s.assignments.find? (fun a => a.windowId == w) with
  | none => rw [hf] at h; cases h
  | some a =>
    rw [hf] at h
    have hmem := List.mem_of_find?_eq_some hf
    have hid : (a.windowId == w) = true := (List.find?_eq_some.mp hf).1
    have hsp : a.cellSpan = sp := by simpa using h
    exact ⟨a, hmem, by simpa using hid, hsp⟩

theorem assignSpanToGrid_gridState_eq {w : String} {sp : CellSpan} {s s' : GridState} :
    (assignSpanToGrid w sp s).gridState = some s' ↔
    validateCellSpan sp s (some w) = none ∧ s' = assignWindowToGrid w sp s := by
  unfold assignSpanToGrid
  cases hv : validateCellSpan sp s (some w) with
  | some e => simp
  | none => simp [eq_comm]

/-- The invariant relation is symmetric. -/
theorem gridInvariant_rel_symm : Symmetric (fun a b : Assignment =>
    a.windowId ≠ b.windowId ∧ spansOverlap a.cellSpan b.cellSpan = false) := by
  intro a b ⟨h1, h2⟩
  exact ⟨h1.symm, by rw [spansOverlap_comm]; exact h2⟩

theorem invariant_assign {w : String} {sp : CellSpan} {s s' : GridState}
    (hinv : GridInvariant s) (h : (assignSpanToGrid w sp s).gridState = some s') :
    GridInvariant s' := by
  obtain ⟨hvalid, rfl⟩ := assignSpanToGrid_gridState_eq.mp h
  obtain ⟨hbounds, hover⟩ := (validateCellSpan_none_iff sp s (some w)).mp hvalid
  unfold GridInvariant at hinv ⊢
  unfold assignWindowToGrid
  simp only
  rw [List.pairwise_append]
  refine ⟨List.Pairwise.sublist (List.filter_sublist _) hinv, by simp, ?_⟩
  intro a ha b hb
  have hmem := List.mem_of_mem_filter ha
  have hidne : a.windowId ≠ w := by
    have := List.of_mem_filter ha
    simpa using this
  simp only [List.mem_singleton] at hb
  subst hb
  refine ⟨by simpa using hidne, ?_⟩
  rw [spansOverlap_comm]
  exact hover a hmem (by simpa using hidne.symm)

theorem invariant_remove {w : String} {s : GridState} (hinv : GridInvariant s) :
    GridInvariant (removeFromGrid w s) :=
  List.Pairwise.sublist (List.filter_sublist _) hinv

theorem swap_entry_eq (w1 w2 : String) (sp1 sp2 : CellSpan) (a : Assignment) :
    (if a.windowId = w1 then (⟨a.windowId, sp2⟩ : Assignment)
     else if a.windowId = w2 then ⟨a.windowId, sp1⟩ else a) =
    ⟨a.windowId, if a.windowId = w1 then sp2
      else if a.windowId = w2 then sp1 else a.cellSpan⟩ := by
  by_cases h1 : a.windowId = w1
  · rw [if_pos h1, if_pos h1]
  · rw [if_neg h1, if_neg h1]
    by_cases h2 : a.windowId = w2
    · rw [if_pos h2, if_pos h2]
    · rw [if_neg h2, if_neg h2]

theorem invariant_swap {w1 w2 : String} {s : GridState} (hinv : GridInvariant s) :
    GridInvariant (swapWindowPositions w1 w2 s) := by
  unfold swapWindowPositions
  cases h1 : getWindowCellSpan w1 s with
  | none => exact hinv
  | some sp1 =>
    cases h2 : getWindowCellSpan w2 s with
    | none => exact hinv
    | some sp2 =>
      obtain ⟨a1, ha1mem, ha1id, ha1sp⟩ := getWindowCellSpan_some h1
      obtain ⟨a2, ha2mem, ha2id, ha2sp⟩ := getWindowCellSpan_some h2
      have hforall := List.Pairwise.forall gridInvariant_rel_symm hinv
      unfold GridInvariant
      simp only
      rw [List.pairwise_map]
      refine List.Pairwise.imp_of_mem ?_ hinv
      intro a b hamem hbmem hR
      obtain ⟨hidne, hov⟩ := hR
      rw [swap_entry_eq w1 w2 sp1 sp2 a, swap_entry_eq w1 w2 sp1 sp2 b]
      refine ⟨by simpa using hidne, ?_⟩
      show spansOverlap
        (if a.windowId = w1 then sp2 else if a.windowId = w2 then sp1 else a.cellSpan)
        (if b.windowId = w1 then sp2 else if b.windowId = w2 then sp1 else b.cellSpan) = false
      by_cases haw1 : a.windowId = w1 <;> by_cases hbw1 : b.windowId = w1
      · exact absurd (haw1.trans hbw1.symm) hidne
      · rw [if_pos haw1, if_neg hbw1]
        by_cases hbw2 : b.windowId = w2
        · rw [if_pos hbw2]
          have hww : w1 ≠ w2 := fun hc => hidne (by rw [haw1, hbw2, hc])
          have h12 : a2 ≠ a1 := fun hc => hww (by rw [← ha1id, ← ha2id, hc])
          have hr := hforall ha2mem ha1mem h12
          rw [← ha1sp, ← ha2sp]
          exact hr.2
        · rw [if_neg hbw2]
          have h2b : a2 ≠ b := fun hc => hbw2 (by rw [← hc, ha2id])
          have hr := hforall ha2mem hbmem h2b
          rw [← ha2sp]
          exact hr.2
      · rw [if_neg haw1, if_pos hbw1]
        by_cases haw2 : a.windowId = w2
        · rw [if_pos haw2]
          have hww : w1 ≠ w2 := fun hc => hidne (by rw [haw2, hbw1, hc])
          have h12 : a1 ≠ a2 := fun hc => hww (by rw [← ha1id, ← ha2id, hc])
          have hr := hforall ha1mem ha2mem h12
          rw [← ha1sp, ← ha2sp]
          exact hr.2
        · rw [if_neg haw2]
          have h2a : a ≠ a2 := fun hc => haw2 (by rw [hc, ha2id])
          have hr := hforall hamem ha2mem h2a
          rw [← ha2sp]
          exact hr.2
      · rw [if_neg haw1, if_neg hbw1]
        by_cases haw2 : a.windowId = w2 <;> by_cases hbw2 : b.windowId = w2
        · exact absurd (haw2.trans hbw2.symm) hidne
        · rw [if_pos haw2, if_neg hbw2]
          have h1b : a1 ≠ b := fun hc => hbw1 (by rw [← hc, ha1id])
          have hr := hforall ha1mem hbmem h1b
          rw [← ha1sp]
          exact hr.2
        · rw [if_neg haw2, if_pos hbw2]
          have h1a : a ≠ a1 := fun hc => haw1 (by rw [hc, ha1id])
          have hr := hforall hamem ha1mem h1a
          rw [← ha1sp]
          exact hr.2
        · rw [if_neg haw2, if_neg hbw2]
          exact hov

theorem preserveValidAssignments_spec : ∀ (old : List Assignment) (st : GridState),
    (preserveValidAssignments st old).desktopIndex = st.desktopIndex ∧
    (preserveValidAssignments st old).config = st.config ∧
    ∃ kept : List Assignment,
      (preserveValidAssignments st old).assignments = st.assignments ++ kept ∧
      kept.Sublist old ∧
      (∀ a ∈ kept, boundsOk st.config a.cellSpan = true ∧
        ∀ b ∈ st.assignments, spansOverlap a.cellSpan b.cellSpan = false) ∧
      kept.Pairwise (fun a b => spansOverlap a.cellSpan b.cellSpan = false) ∧
      (∀ a ∈ old, a ∉ kept → boundsOk st.config a.cellSpan = false ∨
        ∃ b ∈ st.assignments ++ kept, spansOverlap a.cellSpan b.cellSpan = true) := by
  intro old
  induction old with
  | nil =>
    intro st
    exact ⟨rfl, rfl, [], by simp [preserveValidAssignments], List.nil_sublist _,
      by simp, by simp, by simp⟩
  | cons a rest ih =>
    intro st
    cases hv : validateCellSpan a.cellSpan st none with
    | none =>
      have hstep : preserveValidAssignments st (a :: rest) =
          preserveValidAssignments { st with assignments := st.assignments ++ [a] } rest := by
        show preserveValidAssignments (match validateCellSpan a.cellSpan st none with
            | none => { st with assignments := st.assignments ++ [a] }
            | some _ => st) rest =
          preserveValidAssignments { st with assignments := st.assignments ++ [a] } rest
        rw [hv]
      obtain ⟨hd, hc, kept', hassign, hsub, hmem, hpw, hdrop⟩ :=
        ih { st with assignments := st.assignments ++ [a] }
      obtain ⟨hbounds, hover⟩ := (validateCellSpan_none_iff a.cellSpan st none).mp hv
      have hovall : ∀ b ∈ st.assignments, spansOverlap a.cellSpan b.cellSpan = false :=
        fun b hb => hover b hb (by simp)
      refine ⟨by rw [hstep]; exact hd, by rw [hstep]; exact hc, a :: kept', ?_, ?_, ?_, ?_, ?_⟩
      · rw [hstep, hassign]
        simp
      · exact hsub.cons₂ a
      · intro x hx
        rcases List.mem_cons.mp hx with rfl | hx
        · exact ⟨hbounds, hovall⟩
        · obtain ⟨hb1, hb2⟩ := hmem x hx
          exact ⟨hb1, fun b hb => hb2 b (by simp [hb])⟩
      · rw [List.pairwise_cons]
        refine ⟨?_, hpw⟩
        intro x hx
        have := (hmem x hx).2 a (by simp)
        rw [spansOverlap_comm]
        exact this
      · intro x hx hnk
        rcases List.mem_cons.mp hx with rfl | hx
        · exact absurd (by simp) hnk
        · have hxk : x ∉ kept' := fun hk => hnk (by simp [hk])
          rcases hdrop x hx hxk with hb | ⟨b, hbm, hbo⟩
          · exact Or.inl hb
          · refine Or.inr ⟨b, ?_, hbo⟩
            simp only [List.append_assoc, List.singleton_append] at hbm ⊢
            exact hbm
    | some e =>
      have hstep : preserveValidAssignments st (a :: rest) =
          preserveValidAssignments st rest := by
        show preserveValidAssignments (match validateCellSpan a.cellSpan st none with
            | none => { st with assignments := st.assignments ++ [a] }
            | some _ => st) rest = preserveValidAssignments st rest
        rw [hv]
      obtain ⟨hd, hc, kept', hassign, hsub, hmem, hpw, hdrop⟩ := ih st
      refine ⟨by rw [hstep]; exact hd, by rw [hstep]; exact hc, kept', ?_,
        hsub.cons a, hmem, hpw, ?_⟩
      · rw [hstep, hassign]
      · intro x hx hnk
        rcases List.mem_cons.mp hx with rfl | hx
        · rcases validateCellSpan_some_cases hv with hb | ⟨b, hbm, hbo⟩
          · exact Or.inl hb
          · exact Or.inr ⟨b, List.mem_append_left _ hbm, hbo⟩
        · exact hdrop x hx hnk

theorem configureGridState_fields (cfg : GridConfig) (s : GridState) :
    (configureGridState cfg s).desktopIndex = s.desktopIndex ∧
    (configureGridState cfg s).config = cfg := by
  obtain ⟨hd, hc, _⟩ := preserveValidAssignments_spec s.assignments
    (createGridState s.desktopIndex cfg)
  exact ⟨hd, hc⟩

theorem configureGridState_sublist (cfg : GridConfig) (s : GridState) :
    (configureGridState cfg s).assignments.Sublist s.assignments := by
  obtain ⟨_, _, kept, hassign, hsub, _, _, _⟩ := preserveValidAssignments_spec
    s.assignments (createGridState s.desktopIndex cfg)
  unfold configureGridState
  rw [hassign]
  simpa [createGridState] using hsub

theorem invariant_configure {cfg : GridConfig} {s : GridState} (hinv : GridInvariant s) :
    GridInvariant (configureGridState cfg s) :=
  List.Pairwise.sublist (configureGridState_sublist cfg s) hinv

/-- Every reachable grid state satisfies the engine invariant:
distinct window ids and pairwise non-overlapping spans. -/
theorem reachable_invariant {s : GridState} (h : ReachableGrid s) : GridInvariant s := by
  induction h with
  | init d cfg => exact List.Pairwise.nil
  | assignStep w sp s s' _ hstep ih => exact invariant_assign ih hstep
  | removeStep w s _ ih => exact invariant_remove ih
  | swapStep w1 w2 s _ ih => exact invariant_swap ih
  | configureStep cfg s _ ih => exact invariant_configure ih

/-- C1: every grid state reachable through the engine's operations
(assign, reassign, remove, swap, configure) has pairwise
non-overlapping assignments — no two distinct assignments share a unit
cell; concretely, on a 3×3 grid with "A1" assigned to w1, assigning
"A1" to w2 fails with an overlap error and produces no new state. -/
theorem no_overlap_invariant :
    (∀ s, ReachableGrid s → ∀ a ∈ s.assignments, ∀ b ∈ s.assignments, a ≠ b →
      ∀ r c : Nat, ¬(coversCell a.cellSpan r c = true ∧ coversCell b.cellSpan r c = true)) ∧
    (∀ s1, (assignToGrid "w1" "A1" (createGridState 0 DEFAULT_GRID_CONFIG)).gridState = some s1 →
      assignToGrid "w2" "A1" s1 =
        { success := false, gridState := none, error := some GridError.overlapError }) := by
  constructor
  · intro s hreach a ha b hb hne r c
    rintro ⟨hca, hcb⟩
    have hinv := reachable_invariant hreach
    have hforall := List.Pairwise.forall gridInvariant_rel_symm hinv
    have hov := (hforall ha hb hne).2
    rw [sharesCell_overlap hca hcb] at hov
    cases hov
  · intro s1 h
    have hs : (assignToGrid "w1" "A1" (createGridState 0 DEFAULT_GRID_CONFIG)).gridState =
        some { desktopIndex := 0, config := DEFAULT_GRID_CONFIG,
               assignments := [⟨"w1", ⟨0, 0, 1, 1⟩⟩] } := by decide
    rw [hs] at h
    injection h with h
    subst h
    decide

/-- Witness: the invariant applied at a concrete reachable two-window
state, and the concrete overlap failure. -/
theorem no_overlap_invariant_witness :
    (¬(coversCell ⟨0, 0, 1, 1⟩ 0 0 = true ∧ coversCell ⟨0, 1, 1, 1⟩ 0 0 = true)) ∧
    assignToGrid "w2" "A1"
        { desktopIndex := 0, config := DEFAULT_GRID_CONFIG,
          assignments := [⟨"w1", ⟨0, 0, 1, 1⟩⟩] } =
      { success := false, gridState := none, error := some GridError.overlapError } := by
  constructor
  · exact no_overlap_invariant.1
      { desktopIndex := 0, config := DEFAULT_GRID_CONFIG,
        assignments := [⟨"w1", ⟨0, 0, 1, 1⟩⟩, ⟨"w2", ⟨0, 1, 1, 1⟩⟩] }
      (ReachableGrid.assignStep "w2" ⟨0, 1, 1, 1⟩
        { desktopIndex := 0, config := DEFAULT_GRID_CONFIG,
          assignments := [⟨"w1", ⟨0, 0, 1, 1⟩⟩] } _
        (ReachableGrid.assignStep "w1" ⟨0, 0, 1, 1⟩ (createGridState 0 DEFAULT_GRID_CONFIG) _
          (ReachableGrid.init 0 DEFAULT_GRID_CONFIG) (by decide))
        (by decide))
      ⟨"w1", ⟨0, 0, 1, 1⟩⟩ (by decide) ⟨"w2", ⟨0, 1, 1, 1⟩⟩ (by decide) (by decide) 0 0
  · exact no_overlap_invariant.2
      { desktopIndex := 0, config := DEFAULT_GRID_CONFIG,
        assignments := [⟨"w1", ⟨0, 0, 1, 1⟩⟩] } (by decide)

/-- C4: window ids stay unique in every reachable state (a successful
assign replaces rather than duplicates); validation of an assign
excludes the window's own current assignment, so an assign whose span
conflicts with nothing but the window's own cell succeeds; concretely,
w1 at "A1" reassigns to "B1" successfully. -/
theorem reassignment_self_exclusion :
    (∀ s, ReachableGrid s → (s.assignments.map (fun a => a.windowId)).Nodup) ∧
    (∀ (s : GridState) (w : String) (sp : CellSpan),
      boundsOk s.config sp = true →
      (∀ a ∈ s.assignments, a.windowId ≠ w → spansOverlap sp a.cellSpan = false) →
      (assignSpanToGrid w sp s).success = true ∧
      (assignSpanToGrid w sp s).gridState = some (assignWindowToGrid w sp s)) ∧
    (∀ s1, (assignToGrid "w1" "A1" (createGridState 0 DEFAULT_GRID_CONFIG)).gridState = some s1 →
      (assignToGrid "w1" "B1" s1).success = true) := by
  refine ⟨?_, ?_, ?_⟩
  · intro s hreach
    have hinv := reachable_invariant hreach
    exact List.pairwise_map.mpr (hinv.imp (fun hab => hab.1))
  · intro s w sp hb hov
    have hvalid : validateCellSpan sp s (some w) = none :=
      (validateCellSpan_none_iff sp s (some w)).mpr
        ⟨hb, fun a ha hex => hov a ha (fun hidc => hex (by rw [hidc]))⟩
    have hres : assignSpanToGrid w sp s = ⟨true, some (assignWindowToGrid w sp s), none⟩ := by
      unfold assignSpanToGrid
      rw [hvalid]
    rw [hres]
    exact ⟨rfl, rfl⟩
  · intro s1 h
    have hs : (assignToGrid "w1" "A1" (createGridState 0 DEFAULT_GRID_CONFIG)).gridState =
        some { desktopIndex := 0, config := DEFAULT_GRID_CONFIG,
               assignments := [⟨"w1", ⟨0, 0, 1, 1⟩⟩] } := by decide
    rw [hs] at h
    injection h with h
    subst h
    decide

/-- Witness: uniqueness at a concrete reachable state, self-excluded
validation at a concrete reassignment, and the concrete "A1"→"B1"
success. -/
theorem reassignment_self_exclusion_witness :
    (([⟨"w1", ⟨0, 0, 1, 1⟩⟩] : List Assignment).map (fun a => a.windowId)).Nodup ∧
    (assignSpanToGrid "w1" ⟨0, 1, 1, 1⟩
      { desktopIndex := 0, config := DEFAULT_GRID_CONFIG,
        assignments := [⟨"w1", ⟨0, 0, 1, 1⟩⟩] }).success = true ∧
    (assignToGrid "w1" "B1"
      { desktopIndex := 0, config := DEFAULT_GRID_CONFIG,
        assignments := [⟨"w1", ⟨0, 0, 1, 1⟩⟩] }).success = true := by
  refine ⟨?_, ?_, ?_⟩
  · exact reassignment_self_exclusion.1
      { desktopIndex := 0, config := DEFAULT_GRID_CONFIG,
        assignments := [⟨"w1", ⟨0, 0, 1, 1⟩⟩] }
      (ReachableGrid.assignStep "w1" ⟨0, 0, 1, 1⟩ (createGridState 0 DEFAULT_GRID_CONFIG) _
        (ReachableGrid.init 0 DEFAULT_GRID_CONFIG) (by decide))
  · exact (reassignment_self_exclusion.2.1
      { desktopIndex := 0, config := DEFAULT_GRID_CONFIG,
        assignments := [⟨"w1", ⟨0, 0, 1, 1⟩⟩] }
      "w1" ⟨0, 1, 1, 1⟩ (by decide) (by decide)).1
  · exact reassignment_self_exclusion.2.2
      { desktopIndex := 0, config := DEFAULT_GRID_CONFIG,
        assignments := [⟨"w1", ⟨0, 0, 1, 1⟩⟩] } (by decide)

/-- C9: assignment is a pure value operation — a successful assign
returns a new state whose assignment list is computed from the input
(the window's prior entry dropped, the new one appended), every
unrelated entry carried over; the input state itself is a value that no
operation can modify, and in the concrete test the original
state keeps its empty assignment list while the returned state holds
one assignment and differs from the original. -/
theorem assign_value_semantics :
    (∀ (w : String) (sp : CellSpan) (s s' : GridState),
      (assignSpanToGrid w sp s).gridState = some s' →
      s'.assignments = s.assignments.filter (fun a => !(a.windowId == w)) ++ [⟨w, sp⟩] ∧
      (⟨w, sp⟩ : Assignment) ∈ s'.assignments ∧
      s'.config = s.config ∧ s'.desktopIndex = s.desktopIndex ∧
      ∀ a ∈ s.assignments, a.windowId ≠ w → a ∈ s'.assignments) ∧
    ((createGridState 0 DEFAULT_GRID_CONFIG).assignments.length = 0 ∧
      ∀ s', (assignToGrid "win1" "A1" (createGridState 0 DEFAULT_GRID_CONFIG)).gridState =
          some s' →
        s'.assignments.length = 1 ∧ s' ≠ createGridState 0 DEFAULT_GRID_CONFIG ∧
        (createGridState 0 DEFAULT_GRID_CONFIG).assignments.length = 0) := by
  constructor
  · intro w sp s s' h
    obtain ⟨hv, rfl⟩ := assignSpanToGrid_gridState_eq.mp h
    refine ⟨rfl, by simp [assignWindowToGrid], rfl, rfl, ?_⟩
    intro a ha hne
    unfold assignWindowToGrid
    simp only
    exact List.mem_append_left _ (List.mem_filter.mpr ⟨ha, by simp [hne]⟩)
  · refine ⟨rfl, ?_⟩
    intro s' h
    have hs : (assignToGrid "win1" "A1" (createGridState 0 DEFAULT_GRID_CONFIG)).gridState =
        some { desktopIndex := 0, config := DEFAULT_GRID_CONFIG,
               assignments := [⟨"win1", ⟨0, 0, 1, 1⟩⟩] } := by decide
    rw [hs] at h
    injection h with h
    subst h
    refine ⟨rfl, by decide, rfl⟩

/-- Witness: the value-semantics characterization at a concrete
successful assign. -/
theorem assign_value_semantics_witness :
    ({ desktopIndex := 0, config := DEFAULT_GRID_CONFIG,
       assignments := [⟨"win1", ⟨0, 0, 1, 1⟩⟩] } : GridState).assignments =
      (createGridState 0 DEFAULT_GRID_CONFIG).assignments.filter
        (fun a => !(a.windowId == "win1")) ++ [⟨"win1", ⟨0, 0, 1, 1⟩⟩] ∧
    ({ desktopIndex := 0, config := DEFAULT_GRID_CONFIG,
       assignments := [⟨"win1", ⟨0, 0, 1, 1⟩⟩] } : GridState).assignments.length = 1 := by
  constructor
  · exact (assign_value_semantics.1 "win1" ⟨0, 0, 1, 1⟩
      (createGridState 0 DEFAULT_GRID_CONFIG) _ (by decide)).1
  · exact (assign_value_semantics.2.2 _ (by decide)).1

/-- C5: reconfiguring a grid re-checks every existing assignment in
order against the new configuration — the surviving list is an
in-order sublist of the old one, each survivor fits the new bounds and
overlaps no other survivor, and each dropped assignment either no
longer fits or overlaps an already-preserved one. -/
theorem configure_revalidates :
    ∀ (cfg : GridConfig) (s : GridState),
      (configureGridState cfg s).config = cfg ∧
      (configureGridState cfg s).desktopIndex = s.desktopIndex ∧
      (configureGridState cfg s).assignments.Sublist s.assignments ∧
      (∀ a ∈ (configureGridState cfg s).assignments, boundsOk cfg a.cellSpan = true) ∧
      (configureGridState cfg s).assignments.Pairwise
        (fun a b => spansOverlap a.cellSpan b.cellSpan = false) ∧
      (∀ a ∈ s.assignments, a ∉ (configureGridState cfg s).assignments →
        boundsOk cfg a.cellSpan = false ∨
        ∃ b ∈ (configureGridState cfg s).assignments,
          spansOverlap a.cellSpan b.cellSpan = true) := by
  intro cfg s
  obtain ⟨hd, hc, kept, hassign, hsub, hmem, hpw, hdrop⟩ :=
    preserveValidAssignments_spec s.assignments (createGridState s.desktopIndex cfg)
  have hkeq : (configureGridState cfg s).assignments = kept := by
    show (preserveValidAssignments (createGridState s.desktopIndex cfg) s.assignments).assignments = kept
    rw [hassign]
    rfl
  refine ⟨hc, hd, ?_, ?_, ?_, ?_⟩
  · rw [hkeq]; exact hsub
  · intro a ha
    rw [hkeq] at ha
    exact (hmem a ha).1
  · rw [hkeq]; exact hpw
  · intro a ha hnk
    rw [hkeq] at hnk
    rcases hdrop a ha hnk with hb | ⟨b, hbm, hbo⟩
    · exact Or.inl hb
    · refine Or.inr ⟨b, ?_, hbo⟩
      rw [hkeq]
      simpa [createGridState] using hbm

/-- Witness: reconfiguring a 3×3 grid holding w1 at (0,0) and w2 at
column 2 down to 2×2 drops w2, and the theorem explains the drop. -/
theorem configure_revalidates_witness :
    boundsOk ⟨2, 2, 0, 4, 4, 0, 0, 0, 0⟩ (⟨0, 2, 1, 1⟩ : CellSpan) = false ∨
    ∃ b ∈ (configureGridState ⟨2, 2, 0, 4, 4, 0, 0, 0, 0⟩
        { desktopIndex := 0, config := DEFAULT_GRID_CONFIG,
          assignments := [⟨"w1", ⟨0, 0, 1, 1⟩⟩, ⟨"w2", ⟨0, 2, 1, 1⟩⟩] }).assignments,
      spansOverlap (⟨0, 2, 1, 1⟩ : CellSpan) b.cellSpan = true :=
  (configure_revalidates ⟨2, 2, 0, 4, 4, 0, 0, 0, 0⟩
      { desktopIndex := 0, config := DEFAULT_GRID_CONFIG,
        assignments := [⟨"w1", ⟨0, 0, 1, 1⟩⟩, ⟨"w2", ⟨0, 2, 1, 1⟩⟩] }).2.2.2.2.2
    ⟨"w2", ⟨0, 2, 1, 1⟩⟩ (by decide) (by decide)

/-! ## First-fit search lemmas -/

theorem rowMajor_index_lt (cols r c q m : Nat) (hc : c < cols) (hm : m < cols)
    (h : r < q ∨ (r = q ∧ c < m)) : r * cols + c < q * cols + m := by
  rcases h with h | ⟨rfl, h⟩
  · have h1 : r * cols + c < (r + 1) * cols := by
      have he : (r + 1) * cols = r * cols + cols := by ring
      omega
    have h2 : (r + 1) * cols ≤ q * cols := Nat.mul_le_mul_right cols h
    omega
  · omega

theorem rowMajor_index_bound (rows cols r c : Nat) (hr : r < rows) (hc : c < cols) :
    r * cols + c < rows * cols := by
  have h1 : r * cols + c < (r + 1) * cols := by
    have he : (r + 1) * cols = r * cols + cols := by ring
    omega
  have h2 : (r + 1) * cols ≤ rows * cols := Nat.mul_le_mul_right cols hr
  omega

theorem rowMajor_div (cols r c : Nat) (hc : c < cols) : (r * cols + c) / cols = r := by
  rw [mul_comm, Nat.mul_add_div (by omega)]
  have h0 : c / cols = 0 := Nat.div_eq_of_lt hc
  omega

theorem rowMajor_mod (cols r c : Nat) (hc : c < cols) : (r * cols + c) % cols = c := by
  rw [mul_comm, Nat.mul_add_mod]
  exact Nat.mod_eq_of_lt hc

theorem map_range_decompose {α : Type} (f : Nat → α) (N : Nat) (as bs : List α) (b : α)
    (h : (List.range N).map f = as ++ b :: bs) :
    as.length < N ∧ b = f as.length ∧ ∀ j < as.length, f j ∈ as := by
  have hl := congrArg List.length h
  simp at hl
  have hi : as.length < N := by omega
  have htake : as = (List.range as.length).map f := by
    have h1 : ((List.range N).map f).take as.length = as := by
      rw [h]
      exact List.take_left as (b :: bs)
    have h2 : ((List.range N).map f).take as.length = (List.range as.length).map f := by
      rw [← List.map_take, List.take_range, min_eq_left (le_of_lt hi)]
    exact h1.symm.trans h2
  have hb : b = f as.length := by
    have h1 : ((List.range N).map f).drop as.length = b :: bs := by
      rw [h]
      exact List.drop_left as (b :: bs)
    have h2 := congrArg List.head? h1
    rw [List.head?_drop] at h2
    simp only [List.getElem?_map, List.getElem?_range, hi, if_true,
      Option.map_some', List.head?_cons, Option.some_inj] at h2
    exact h2.symm
  refine ⟨hi, hb, ?_⟩
  intro j hj
  rw [htake]
  exact List.mem_map_of_mem f (List.mem_range.mpr hj)

theorem spanFree_false_of_bounds {s : GridState} {sp : CellSpan}
    (h : boundsOk s.config sp = false) : spanFree s sp = false := by
  unfold spanFree
  rw [h]
  rfl

theorem findAvailableSpan_some_spec {s : GridState} {rs cs : Nat} {sp : CellSpan}
    (h : findAvailableSpan rs cs s = some sp) :
    sp.rowSpan = rs ∧ sp.columnSpan = cs ∧
    sp.startRow < s.config.rows ∧ sp.startColumn < s.config.columns ∧
    spanFree s sp = true ∧
    (∀ r c : Nat, r < s.config.rows → c < s.config.columns →
      (r < sp.startRow ∨ (r = sp.startRow ∧ c < sp.startColumn)) →
      spanFree s ⟨r, c, rs, cs⟩ = false) := by
  unfold findAvailableSpan at h
  obtain ⟨hp, as, bs, hdec, hfail⟩ := List.find?_eq_some.mp h
  obtain ⟨hi, hb, hmem⟩ := map_range_decompose _ _ _ _ _ hdec
  have hcols : 0 < s.config.columns := by
    rcases Nat.eq_zero_or_pos s.config.columns with hz | hpos
    · rw [hz, mul_zero] at hi
      omega
    · exact hpos
  have hsr : sp.startRow = as.length / s.config.columns := by rw [hb]
  have hsc : sp.startColumn = as.length % s.config.columns := by rw [hb]
  have hsrow : sp.rowSpan = rs := by rw [hb]
  have hscol : sp.columnSpan = cs := by rw [hb]
  refine ⟨hsrow, hscol, ?_, ?_, hp, ?_⟩
  · rw [hsr]
    exact Nat.div_lt_of_lt_mul (by rw [mul_comm] at hi; exact hi)
  · rw [hsc]
    exact Nat.mod_lt _ hcols
  · intro r c hr hc hbefore
    rw [hsr, hsc] at hbefore
    have hdm : (as.length / s.config.columns) * s.config.columns +
        as.length % s.config.columns = as.length := by
      rw [mul_comm]
      exact Nat.div_add_mod _ _
    have hji : r * s.config.columns + c < as.length := by
      have := rowMajor_index_lt s.config.columns r c
        (as.length / s.config.columns) (as.length % s.config.columns)
        hc (Nat.mod_lt _ hcols) hbefore
      omega
    have hfj : (CellSpan.mk ((r * s.config.columns + c) / s.config.columns)
        ((r * s.config.columns + c) % s.config.columns) rs cs) ∈ as :=
      hmem _ hji
    rw [rowMajor_div _ _ _ hc, rowMajor_mod _ _ _ hc] at hfj
    have := hfail _ hfj
    simpa using this

theorem findAvailableSpan_none_iff (s : GridState) (rs cs : Nat) :
    findAvailableSpan rs cs s = none ↔
    ∀ r c : Nat, r < s.config.rows → c < s.config.columns →
      spanFree s ⟨r, c, rs, cs⟩ = false := by
  unfold findAvailableSpan
  rw [List.find?_eq_none]
  constructor
  · intro hall r c hr hc
    have hbound := rowMajor_index_bound s.config.rows s.config.columns r c hr hc
    have hel : (CellSpan.mk ((r * s.config.columns + c) / s.config.columns)
        ((r * s.config.columns + c) % s.config.columns) rs cs) ∈
        (List.range (s.config.rows * s.config.columns)).map
          (fun i => CellSpan.mk (i / s.config.columns) (i % s.config.columns) rs cs) :=
      List.mem_map_of_mem _ (List.mem_range.mpr hbound)
    rw [rowMajor_div _ _ _ hc, rowMajor_mod _ _ _ hc] at hel
    have := hall _ hel
    simpa using this
  · intro hfailall x hx
    obtain ⟨i, hiN, rfl⟩ := List.mem_map.mp hx
    rw [List.mem_range] at hiN
    have hcols : 0 < s.config.columns := by
      rcases Nat.eq_zero_or_pos s.config.columns with hz | hpos
      · rw [hz, mul_zero] at hiN
        omega
      · exact hpos
    have hdr : i / s.config.columns < s.config.rows :=
      Nat.div_lt_of_lt_mul (by rw [mul_comm] at hiN; exact hiN)
    have := hfailall (i / s.config.columns) (i % s.config.columns) hdr
      (Nat.mod_lt _ hcols)
    simp [this]

/-- C3: first-fit search — a found span has the requested size, is
free, and every row-major-earlier candidate is not free; the search
returns null exactly when no in-bounds candidate of the requested size
is free, in particular whenever the requested size exceeds the grid;
concretely, on an empty 3×3 grid a 1×1 search returns (0,0), and after
assigning (0,0) it returns the next row-major cell (0,1). -/
theorem findAvailableSpan_first_fit :
    (∀ (s : GridState) (rs cs : Nat) (sp : CellSpan),
      findAvailableSpan rs cs s = some sp →
      sp.rowSpan = rs ∧ sp.columnSpan = cs ∧
      sp.startRow < s.config.rows ∧ sp.startColumn < s.config.columns ∧
      spanFree s sp = true ∧
      (∀ r c : Nat, r < s.config.rows → c < s.config.columns →
        (r < sp.startRow ∨ (r = sp.startRow ∧ c < sp.startColumn)) →
        spanFree s ⟨r, c, rs, cs⟩ = false)) ∧
    (∀ (s : GridState) (rs cs : Nat),
      findAvailableSpan rs cs s = none ↔
      ∀ r c : Nat, r < s.config.rows → c < s.config.columns →
        spanFree s ⟨r, c, rs, cs⟩ = false) ∧
    findAvailableSpan 1 1 (createGridState 0 DEFAULT_GRID_CONFIG) = some ⟨0, 0, 1, 1⟩ ∧
    (∀ s1, (assignSpanToGrid "w1" ⟨0, 0, 1, 1⟩
        (createGridState 0 DEFAULT_GRID_CONFIG)).gridState = some s1 →
      findAvailableSpan 1 1 s1 = some ⟨0, 1, 1, 1⟩) ∧
    (∀ (s : GridState) (rs cs : Nat),
      s.config.rows < rs ∨ s.config.columns < cs →
      findAvailableSpan rs cs s = none) := by
  refine ⟨fun s rs cs sp h => findAvailableSpan_some_spec h,
    findAvailableSpan_none_iff, by decide, ?_, ?_⟩
  · intro s1 h
    have hs : (assignSpanToGrid "w1" ⟨0, 0, 1, 1⟩
        (createGridState 0 DEFAULT_GRID_CONFIG)).gridState =
        some { desktopIndex := 0, config := DEFAULT_GRID_CONFIG,
               assignments := [⟨"w1", ⟨0, 0, 1, 1⟩⟩] } := by decide
    rw [hs] at h
    injection h with h
    subst h
    decide
  · intro s rs cs hbig
    rw [findAvailableSpan_none_iff]
    intro r c hr hc
    apply spanFree_false_of_bounds
    cases hb : boundsOk s.config ⟨r, c, rs, cs⟩ with
    | false => rfl
    | true =>
      exfalso
      unfold boundsOk at hb
      simp only [Bool.and_eq_true, decide_eq_true_eq] at hb
      rcases hbig with hbig | hbig <;> omega

/-- Witness: the first-fit characterization at the one-assignment 3×3
state, plus an impossible oversized request. -/
theorem findAvailableSpan_first_fit_witness :
    spanFree { desktopIndex := 0, config := DEFAULT_GRID_CONFIG,
               assignments := [⟨"w1", ⟨0, 0, 1, 1⟩⟩] } ⟨0, 1, 1, 1⟩ = true ∧
    spanFree { desktopIndex := 0, config := DEFAULT_GRID_CONFIG,
               assignments := [⟨"w1", ⟨0, 0, 1, 1⟩⟩] } ⟨0, 0, 1, 1⟩ = false ∧
    findAvailableSpan 4 4 (createGridState 0 DEFAULT_GRID_CONFIG) = none := by
  refine ⟨?_, ?_, ?_⟩
  · exact (findAvailableSpan_first_fit.1
      { desktopIndex := 0, config := DEFAULT_GRID_CONFIG,
        assignments := [⟨"w1", ⟨0, 0, 1, 1⟩⟩] } 1 1 ⟨0, 1, 1, 1⟩ (by decide)).2.2.2.2.1
  · exact (findAvailableSpan_first_fit.1
      { desktopIndex := 0, config := DEFAULT_GRID_CONFIG,
        assignments := [⟨"w1", ⟨0, 0, 1, 1⟩⟩] } 1 1 ⟨0, 1, 1, 1⟩ (by decide)).2.2.2.2.2
      0 0 (by decide) (by decide) (by decide)
  · exact findAvailableSpan_first_fit.2.2.2.2 (createGridState 0 DEFAULT_GRID_CONFIG) 4 4
      (Or.inl (by decide))

/-- C6: geometry lookup of a window with no assignment yields the null
value (never an exception — the resolver is a total function into an
option). -/
theorem calculateRect_unassigned :
    ∀ (w : String) (s : GridState) (workArea : WorkArea),
      (∀ a ∈ s.assignments, a.windowId ≠ w) →
      calculateRect w s workArea = none := by
  intro w s workArea h
  have hnone : getWindowCellSpan w s = none := by
    unfold getWindowCellSpan
    rw [List.find?_eq_none.mpr]
    · rfl
    · intro a ha
      simpa using h a ha
  unfold calculateRect
  rw [hnone]

/-- Witness: the rect of an unassigned window id on a one-assignment
3×3 grid is none. -/
theorem calculateRect_unassigned_witness :
    calculateRect "nonexistent"
      { desktopIndex := 0, config := DEFAULT_GRID_CONFIG,
        assignments := [⟨"window1", ⟨0, 0, 1, 1⟩⟩] }
      ⟨0, 0, 1920, 1080⟩ = none :=
  calculateRect_unassigned "nonexistent"
    { desktopIndex := 0, config := DEFAULT_GRID_CONFIG,
      assignments := [⟨"window1", ⟨0, 0, 1, 1⟩⟩] }
    ⟨0, 0, 1920, 1080⟩ (by decide)

/-- C8 (amended): the codec handles bijective base-26 letters beyond Z
— zero-based column 26 parses from and formats to "AA", and assigning
column 26 on a 1×30 grid succeeds; the CLI's available-cells display
agrees with the codec for columns 0–25 (single letter), but renders
column 26 with the single character of code 65+26 = "[", not "AA". -/
theorem column_letters_beyond_z :
    parseGridPosition "AA1" = some ⟨0, 26, 1, 1⟩ ∧
    formatGridPosition ⟨0, 26, 1, 1⟩ = "AA1" ∧
    (assignSpanToGrid "win1" ⟨0, 26, 1, 1⟩
      (createGridState 0 ⟨1, 30, 0, 4, 4, 0, 0, 0, 0⟩)).success = true ∧
    (∀ r col : Nat, col ≤ 25 →
      cliCellName ⟨r, col⟩ = formatGridPosition ⟨r, col, 1, 1⟩) ∧
    cliCellName ⟨0, 26⟩ ≠ formatGridPosition ⟨0, 26, 1, 1⟩ := by
  refine ⟨by decide, by decide, by decide, ?_, by decide⟩
  intro r col hcol
  unfold cliCellName formatGridPosition
  rw [if_pos ⟨rfl, rfl⟩]
  show String.mk (Char.ofNat (65 + col) :: natDigits (r + 1)) =
    String.mk (cellNameChars r col)
  unfold cellNameChars
  rw [colLetters_eq, if_pos (show col < 26 by omega)]
  rfl

/-- Witness: the CLI/codec agreement applied at column 1, row 1
(cell "B2"). -/
theorem column_letters_beyond_z_witness :
    cliCellName ⟨1, 1⟩ = formatGridPosition ⟨1, 1, 1, 1⟩ :=
  column_letters_beyond_z.2.2.2.1 1 1 (by omega)

/-- C8 counterexample: a 1×30 grid whose only free unit cell is column
26 — the CLI's `grid info` rendering shows it as "[1"
(String.fromCharCode 65+26 is "["), while the codec's spreadsheet
address of that cell is "AA1". -/
theorem cli_display_breaks_beyond_z :
    getAvailableGridCells
      { desktopIndex := 0, config := ⟨1, 30, 0, 4, 4, 0, 0, 0, 0⟩,
        assignments := [⟨"w1", ⟨0, 0, 1, 26⟩⟩, ⟨"w2", ⟨0, 27, 1, 3⟩⟩] } = [⟨0, 26⟩] ∧
    cliCellName ⟨0, 26⟩ = "[1" ∧
    formatGridPosition ⟨0, 26, 1, 1⟩ = "AA1" ∧
    cliCellName ⟨0, 26⟩ ≠ "AA1" := by
  refine ⟨by decide, by decide, by decide, by decide⟩

/-! ## Session-level lemmas for the move operation -/

theorem removeWindowFromGridSession_gridState {w : String} {s : SessionStateM}
    {g : GridState} (hg : s.gridState = some g) :
    (removeWindowFromGridSession w s).gridState = some (removeFromGrid w g) := by
  unfold removeWindowFromGridSession
  rw [hg]

theorem removeWindowFromGridSession_windows {w : String} {s : SessionStateM}
    {g : GridState} (hg : s.gridState = some g) :
    (removeWindowFromGridSession w s).windows =
      s.windows.map (fun win =>
        if win.id == w then { win with gridAssignment := none } else win) := by
  unfold removeWindowFromGridSession
  rw [hg]

theorem moveWindowInGridSession_error {w spec : String} {s : SessionStateM}
    {e : SessionError} (h : (moveWindowInGridSession w spec s).2 = some e) :
    (moveWindowInGridSession w spec s).1 = removeWindowFromGridSession w s := by
  unfold moveWindowInGridSession at h ⊢
  cases hassign : assignWindowToCellSession w spec (removeWindowFromGridSession w s) with
  | ok s2 => rw [hassign] at h; cases h
  | error e2 => rfl

/-- C10: moving a window is not atomic — the removal of the window's
current assignment is persisted before the new cell spec is parsed and
validated, so when the move fails, the persisted session no longer
assigns the window anywhere: its grid entry and its recorded window
assignment are both gone, and the pre-call placement is not restored. -/
theorem move_not_atomic :
    ∀ (s : SessionStateM) (w spec : String) (g : GridState),
      s.gridState = some g →
      ∀ e, (moveWindowInGridSession w spec s).2 = some e →
        (∃ g', (moveWindowInGridSession w spec s).1.gridState = some g' ∧
          ∀ a ∈ g'.assignments, a.windowId ≠ w) ∧
        (∀ win ∈ (moveWindowInGridSession w spec s).1.windows,
          win.id = w → win.gridAssignment = none) := by
  intro s w spec g hg e herr
  rw [moveWindowInGridSession_error herr]
  constructor
  · refine ⟨removeFromGrid w g, removeWindowFromGridSession_gridState hg, ?_⟩
    intro a ha
    have := List.of_mem_filter ha
    simpa using this
  · rw [removeWindowFromGridSession_windows hg]
    intro win hwin hid
    obtain ⟨w0, hw0, rfl⟩ := List.mem_map.mp hwin
    by_cases hb : (w0.id == w) = true
    · rw [if_pos hb]
    · rw [if_neg hb] at hid ⊢
      exact absurd hid (by simpa using hb)

/-- Witness: moving the only window to an invalid spec errors, yet the
persisted session has already lost the window's assignment. -/
theorem move_not_atomic_witness :
    (∃ g', (moveWindowInGridSession "w1" "invalid"
        ⟨0, [⟨"w1", some ⟨0, 0, 1, 1⟩⟩], some DEFAULT_GRID_CONFIG,
         some ⟨0, DEFAULT_GRID_CONFIG, [⟨"w1", ⟨0, 0, 1, 1⟩⟩]⟩⟩).1.gridState = some g' ∧
      ∀ a ∈ g'.assignments, a.windowId ≠ "w1") ∧
    (∀ win ∈ (moveWindowInGridSession "w1" "invalid"
        ⟨0, [⟨"w1", some ⟨0, 0, 1, 1⟩⟩], some DEFAULT_GRID_CONFIG,
         some ⟨0, DEFAULT_GRID_CONFIG, [⟨"w1", ⟨0, 0, 1, 1⟩⟩]⟩⟩).1.windows,
      win.id = "w1" → win.gridAssignment = none) :=
  move_not_atomic
    ⟨0, [⟨"w1", some ⟨0, 0, 1, 1⟩⟩], some DEFAULT_GRID_CONFIG,
     some ⟨0, DEFAULT_GRID_CONFIG, [⟨"w1", ⟨0, 0, 1, 1⟩⟩]⟩⟩
    "w1" "invalid"
    ⟨0, DEFAULT_GRID_CONFIG, [⟨"w1", ⟨0, 0, 1, 1⟩⟩]⟩
    (by decide) (SessionError.gridError GridError.parseError) (by decide)
